import Mathlib

/-!
Verification of the in-memory changelist/selection store of the
jetbrains-commit-manager extension.

The development shallowly embeds `src/store/commitStore.ts` and
`src/utils/optimisticOperation.ts`.  TypeScript classes holding mutable
state become a `Store` structure with operations as pure functions
`Store → ... → Store`; event-emitter `fire` calls become an explicit list
of emitted `StoreEvent`s returned next to the new store; JavaScript
`Map` objects become association lists with JS `Map.set` semantics
(replace in place if the key is present, append otherwise); exceptions
(`addFileToGit`, the VCS status query, `renameChangelist`'s naming
conflict) become `Except` values.

Omitted fields: `Changelist.description` (never read by the store logic)
and `Changelist.createdAt` (wall-clock `Date`, never read).
`generateId` (wall clock + randomness) is modelled by passing the fresh
id as an explicit argument.
-/

namespace CommitManager

/-- `FileStatus` from `src/types/fileStatus.ts`. -/
inductive FileStatus where
  | modified
  | added
  | deleted
  | untracked
  | renamed
deriving DecidableEq, Repr

/-- `FileItem` from `src/types/fileItem.ts`.  The optional
`changelistId?: string` field is an `Option String`. -/
structure FileItem where
  id : String
  path : String
  name : String
  status : FileStatus
  isSelected : Bool
  changelistId : Option String
  relativePath : String
deriving DecidableEq, Repr

/-- `Changelist` from `src/types/changelist.ts`.  The optional booleans
`isDefault?`/`isExpanded?` are modelled as `Bool` with `false` for
absent.  `description` and `createdAt` are never read by the store and
are omitted. -/
structure Changelist where
  id : String
  name : String
  files : List FileItem
  isDefault : Bool
  isExpanded : Bool
deriving DecidableEq, Repr

/-- Modelled from the spec: the `DefaultValues` constants module is not
present under `src/`; §4.1 of the spec fixes a default changelist with a
fixed id.  The concrete string is irrelevant to every property proved
below. -/
def DefaultChangelistId : String := "default"

/-- Modelled from the spec: fixed name of the default changelist
(§4.1); the concrete string is irrelevant below. -/
def DefaultChangelistName : String := "Changes"

/-- Modelled from the spec: the reserved sentinel key under which
`removeCommittedFiles` records files removed from the unversioned
bucket (§4.3 "a sentinel key denoting the unversioned bucket"). -/
def UnversionedSnapshotKey : String := "unversioned"

/-- The mutable state of `CommitStore`: `changelists`,
`unversionedFiles` and `_unversionedFilesExpanded`. -/
structure Store where
  changelists : List Changelist
  unversionedFiles : List FileItem
  unversionedFilesExpanded : Bool
deriving DecidableEq, Repr

/-- The three event emitters of `CommitStore`. -/
inductive StoreEvent where
  | didChange
  | changelistCreated (id : String)
  | changelistAutoExpand (id : String)
deriving DecidableEq, Repr

/-- Update the first element satisfying `p` (JS `find` + mutation of the
found object). -/
def updateFirst {α : Type} (p : α → Bool) (g : α → α) : List α → List α
  | [] => []
  | a :: as => if p a then g a :: as else a :: updateFirst p g as

/-- Index of the first element satisfying `p`. -/
def findIdxQ {α : Type} (p : α → Bool) : List α → Option Nat
  | [] => none
  | a :: as => if p a then some 0 else (findIdxQ p as).map (· + 1)

/-- JS `Map.set`: replace in place when the key is present, append
otherwise. -/
def mapSet {α : Type} (m : List (String × α)) (k : String) (v : α) : List (String × α) :=
  if m.any (fun p => p.1 == k) then m.map (fun p => if p.1 == k then (k, v) else p)
  else m ++ [(k, v)]

/-- JS `Map.get`. -/
def mapGet {α : Type} (m : List (String × α)) (k : String) : Option α :=
  (m.find? (fun p => p.1 == k)).map Prod.snd

/-- `initializeDefaultChangelist` (commitStore.ts line 294): the single
seed changelist. -/
def initDefaultChangelist : List Changelist :=
  [{ id := DefaultChangelistId, name := DefaultChangelistName, files := [],
     isDefault := true, isExpanded := false }]

/-- The store as built by the `CommitStore` constructor. -/
def Store.init : Store :=
  { changelists := initDefaultChangelist, unversionedFiles := [],
    unversionedFilesExpanded := true }

/-- `createChangelist` (line 34).  `generateId()` is modelled by the
explicit `newId` argument; the TS object literal omits `isDefault`, so
the new changelist is not default. -/
def Store.createChangelist (s : Store) (newId newName : String) :
    Store × List StoreEvent :=
  let newChangelist : Changelist :=
    { id := newId, name := newName, files := [], isDefault := false, isExpanded := true }
  ({ s with changelists := s.changelists ++ [newChangelist] },
   [StoreEvent.didChange, StoreEvent.changelistCreated newId])

/-- `deleteChangelist` (line 48): no-op (without firing) when the id is
not found or names the default changelist; otherwise pushes the files
into the first default changelist (only when non-empty) and filters the
deleted id out. -/
def Store.deleteChangelist (s : Store) (changelistId : String) :
    Store × List StoreEvent :=
  match s.changelists.find? (fun c => c.id == changelistId) with
  | none => (s, [])
  | some changelist =>
    if changelist.isDefault then (s, [])
    else
      let pushed := updateFirst (fun c => c.isDefault)
        (fun d => if changelist.files.length > 0 then
            { d with files := d.files ++ changelist.files } else d)
        s.changelists
      ({ s with changelists := pushed.filter (fun c => !(c.id == changelistId)) },
       [StoreEvent.didChange])

/-- `renameChangelist` (line 61): no-op (without firing) when not found;
throws on a name collision with a different changelist; otherwise
renames in place. -/
def Store.renameChangelist (s : Store) (changelistId newName : String) :
    Except String (Store × List StoreEvent) :=
  match s.changelists.find? (fun c => c.id == changelistId) with
  | none => Except.ok (s, [])
  | some _ =>
    if s.changelists.any (fun c => c.name == newName && !(c.id == changelistId)) then
      Except.error ("A changelist with the name " ++ newName ++ " already exists")
    else
      Except.ok
        ({ s with
            changelists :=
              updateFirst (fun c => c.id == changelistId)
                (fun c => { c with name := newName }) s.changelists },
         [StoreEvent.didChange])

/-- The first loop of `moveFileToChangelist` (lines 78-85): find the
first changelist containing the file id, splice the first matching file
out, and return it. -/
def removeFileFromChangelists (fileId : String) :
    List Changelist → Option (FileItem × List Changelist)
  | [] => none
  | c :: cs =>
    match c.files.find? (fun f => f.id == fileId) with
    | some f =>
      some (f, { c with files := c.files.eraseP (fun g => g.id == fileId) } :: cs)
    | none => (removeFileFromChangelists fileId cs).map (fun r => (r.1, c :: r.2))

/-- `moveFileToChangelist` (line 74).  The outcome of the awaited
`gitService.addFileToGit` call is the explicit `addResult` argument
(consulted only when the file came from the unversioned bucket). -/
def Store.moveFileToChangelist (s : Store) (fileId targetChangelistId : String)
    (addResult : Except Unit Unit) : Store × List StoreEvent :=
  let found : Option (FileItem × Store × Bool) :=
    match removeFileFromChangelists fileId s.changelists with
    | some r => some (r.1, { s with changelists := r.2 }, false)
    | none =>
      match s.unversionedFiles.find? (fun f => f.id == fileId) with
      | some f =>
        some (f, { s with unversionedFiles :=
                    s.unversionedFiles.eraseP (fun g => g.id == fileId) }, true)
      | none => none
  match found with
  | none => (s, [StoreEvent.didChange])
  | some (file, s1, wasUntracked) =>
    if !(s1.changelists.any (fun c => c.id == targetChangelistId)) then
      (s1, [StoreEvent.didChange])
    else
      match (if wasUntracked then addResult else Except.ok ()) with
      | Except.error _ =>
        ({ s1 with unversionedFiles := s1.unversionedFiles ++ [file] },
         [StoreEvent.didChange])
      | Except.ok _ =>
        let file1 := if wasUntracked then { file with status := FileStatus.added } else file
        let file2 := { file1 with changelistId := some targetChangelistId }
        ({ s1 with
            changelists :=
              updateFirst (fun c => c.id == targetChangelistId)
                (fun c => { c with files := c.files ++ [file2], isExpanded := true })
                s1.changelists },
         [StoreEvent.changelistAutoExpand targetChangelistId, StoreEvent.didChange])

/-- `moveChangelistFiles` (line 126): batch move with `changelistId`
reassignment on every moved file. -/
def Store.moveChangelistFiles (s : Store) (sourceChangelistId targetChangelistId : String) :
    Store × List StoreEvent :=
  match s.changelists.find? (fun c => c.id == sourceChangelistId),
        s.changelists.find? (fun c => c.id == targetChangelistId) with
  | some sourceChangelist, some _ =>
    let filesToMove := sourceChangelist.files.map
      (fun f => { f with changelistId := some targetChangelistId })
    let cls1 := updateFirst (fun c => c.id == sourceChangelistId)
      (fun c => { c with files := [] }) s.changelists
    let cls2 := updateFirst (fun c => c.id == targetChangelistId)
      (fun c => { c with files := c.files ++ filesToMove, isExpanded := true }) cls1
    ({ s with changelists := cls2 },
     [StoreEvent.didChange, StoreEvent.changelistAutoExpand targetChangelistId])
  | _, _ => (s, [])

/-- Selection update used by `toggleFileSelection`: explicit boolean or
invert. -/
def toggleSel (sel : Option Bool) (f : FileItem) : FileItem :=
  { f with isSelected := sel.getD (!f.isSelected) }

/-- `toggleFileSelection` (line 145): only the first file with the id,
searching the changelists first; no event at all when the id is
nowhere. -/
def Store.toggleFileSelection (s : Store) (fileId : String) (sel : Option Bool) :
    Store × List StoreEvent :=
  if s.changelists.any (fun c => c.files.any (fun f => f.id == fileId)) then
    ({ s with
        changelists :=
          updateFirst (fun c => c.files.any (fun f => f.id == fileId))
            (fun c => { c with
                files := updateFirst (fun f => f.id == fileId) (toggleSel sel) c.files })
            s.changelists },
     [StoreEvent.didChange])
  else if s.unversionedFiles.any (fun f => f.id == fileId) then
    ({ s with
        unversionedFiles :=
          updateFirst (fun f => f.id == fileId) (toggleSel sel) s.unversionedFiles },
     [StoreEvent.didChange])
  else (s, [])

/-- `toggleChangelistSelection` (line 162). -/
def Store.toggleChangelistSelection (s : Store) (changelistId : String) (isSel : Bool) :
    Store × List StoreEvent :=
  if s.changelists.any (fun c => c.id == changelistId) then
    ({ s with
        changelists :=
          updateFirst (fun c => c.id == changelistId)
            (fun c => { c with
                files := c.files.map (fun f => { f with isSelected := isSel }) })
            s.changelists },
     [StoreEvent.didChange])
  else (s, [])

/-- `toggleUnversionedSelection` (line 173). -/
def Store.toggleUnversionedSelection (s : Store) (isSel : Bool) :
    Store × List StoreEvent :=
  ({ s with unversionedFiles :=
      s.unversionedFiles.map (fun f => { f with isSelected := isSel }) },
   [StoreEvent.didChange])

/-- `selectAllFiles` (line 181). -/
def Store.selectAllFiles (s : Store) : Store × List StoreEvent :=
  ({ s with
      changelists := s.changelists.map
        (fun c => { c with files := c.files.map (fun f => { f with isSelected := true }) }),
      unversionedFiles := s.unversionedFiles.map (fun f => { f with isSelected := true }) },
   [StoreEvent.didChange])

/-- `deselectAllFiles` (line 195). -/
def Store.deselectAllFiles (s : Store) : Store × List StoreEvent :=
  ({ s with
      changelists := s.changelists.map
        (fun c => { c with files := c.files.map (fun f => { f with isSelected := false }) }),
      unversionedFiles := s.unversionedFiles.map (fun f => { f with isSelected := false }) },
   [StoreEvent.didChange])

/-- `collapseAll` (line 209). -/
def Store.collapseAll (s : Store) : Store × List StoreEvent :=
  ({ s with
      changelists := s.changelists.map (fun c => { c with isExpanded := false }),
      unversionedFilesExpanded := false },
   [StoreEvent.didChange])

/-- The loop of `removeCommittedFiles` (lines 221-225): per changelist,
record the removed files in the snapshot (only when non-empty, JS
`Map.set`) and keep the rest. -/
def removeLoop (fileIds : List String) :
    List Changelist → List (String × List FileItem) →
    List Changelist × List (String × List FileItem)
  | [], snap => ([], snap)
  | c :: cs, snap =>
    let removed := c.files.filter (fun f => fileIds.contains f.id)
    let snap1 := if removed.length > 0 then mapSet snap c.id removed else snap
    let rest := removeLoop fileIds cs snap1
    ({ c with files := c.files.filter (fun f => !(fileIds.contains f.id)) } :: rest.1,
     rest.2)

/-- `removeCommittedFiles` (line 219); the `Set<string>` of ids is a
list queried with `contains`. -/
def Store.removeCommittedFiles (s : Store) (fileIds : List String) :
    Store × List (String × List FileItem) × List StoreEvent :=
  let r := removeLoop fileIds s.changelists []
  let removedUnversioned := s.unversionedFiles.filter (fun f => fileIds.contains f.id)
  let snap :=
    if removedUnversioned.length > 0 then mapSet r.2 UnversionedSnapshotKey removedUnversioned
    else r.2
  ({ s with
      changelists := r.1,
      unversionedFiles := s.unversionedFiles.filter (fun f => !(fileIds.contains f.id)) },
   (snap, [StoreEvent.didChange]))

/-- One entry of the `restoreFiles` loop (line 234). -/
def restoreStep (st : Store) (entry : String × List FileItem) : Store :=
  if entry.1 == UnversionedSnapshotKey then
    { st with unversionedFiles := st.unversionedFiles ++ entry.2 }
  else
    { st with
        changelists :=
          updateFirst (fun c => c.id == entry.1)
            (fun c => { c with files := c.files ++ entry.2 }) st.changelists }

/-- `restoreFiles` (line 233). -/
def Store.restoreFiles (s : Store) (snapshot : List (String × List FileItem)) :
    Store × List StoreEvent :=
  (snapshot.foldl restoreStep s, [StoreEvent.didChange])

/-- The selection map of `loadGitStatus` (lines 312-324): id ↦ previous
`isSelected`, over all changelists' files and the unversioned bucket. -/
def buildSelectionMap (s : Store) : List (String × Bool) :=
  let m := s.changelists.foldl
    (fun m c => c.files.foldl (fun m f => mapSet m f.id f.isSelected) m) []
  s.unversionedFiles.foldl (fun m f => mapSet m f.id f.isSelected) m

/-- The assignment map of `loadGitStatus` (lines 313-320): id ↦ previous
changelist id, over all changelists' files. -/
def buildAssignmentMap (s : Store) : List (String × String) :=
  s.changelists.foldl
    (fun m c => c.files.foldl (fun m f => mapSet m f.id c.id) m) []

/-- Restore `isSelected` from the selection map when present
(lines 331-333 and 355-357). -/
def restoreSel (selMap : List (String × Bool)) (f : FileItem) : FileItem :=
  match mapGet selMap f.id with
  | some b => { f with isSelected := b }
  | none => f

/-- The body of the `gitFiles.forEach` of `loadGitStatus`
(lines 330-352): restore selection, then push a tracked file into the
first changelist with the recorded id (dropping it when that find
fails), or into the first default changelist when no assignment is
recorded. -/
def placeGitFile (assignMap : List (String × String)) (selMap : List (String × Bool))
    (cls : List Changelist) (f : FileItem) : List Changelist :=
  let f1 := restoreSel selMap f
  if f1.status == FileStatus.untracked then cls
  else
    match mapGet assignMap f1.id with
    | some cid =>
      updateFirst (fun c => c.id == cid)
        (fun c => { c with files := c.files ++ [{ f1 with changelistId := some c.id }] }) cls
    | none =>
      updateFirst (fun c => c.isDefault)
        (fun c => { c with files := c.files ++ [{ f1 with changelistId := some c.id }] }) cls

/-- The successful branch of `loadGitStatus` (lines 309-359). -/
def loadGitStatusOk (s : Store) (gitFiles unversionedFiles : List FileItem) : Store :=
  let selMap := buildSelectionMap s
  let assignMap := buildAssignmentMap s
  let cleared := s.changelists.map (fun c => { c with files := [] })
  { s with
      changelists := gitFiles.foldl (placeGitFile assignMap selMap) cleared,
      unversionedFiles := unversionedFiles.map (restoreSel selMap) }

/-- `loadGitStatus` (line 307); the outcome of the two awaited VCS
queries is the explicit `queryResult` argument, and the surrounding
`try`/`catch` leaves the store untouched on error. -/
def Store.loadGitStatus (s : Store)
    (queryResult : Except Unit (List FileItem × List FileItem)) : Store :=
  match queryResult with
  | Except.error _ => s
  | Except.ok r => loadGitStatusOk s r.1 r.2

/-- `refresh` (line 29): reload then fire once. -/
def Store.refresh (s : Store)
    (queryResult : Except Unit (List FileItem × List FileItem)) :
    Store × List StoreEvent :=
  (s.loadGitStatus queryResult, [StoreEvent.didChange])

/-- `setUnversionedExpanded` (line 283); fires nothing. -/
def Store.setUnversionedExpanded (s : Store) (expanded : Bool) : Store :=
  { s with unversionedFilesExpanded := expanded }

/-- `setChangelistExpanded` (line 287); fires nothing. -/
def Store.setChangelistExpanded (s : Store) (changelistId : String) (expanded : Bool) :
    Store :=
  { s with
      changelists :=
        updateFirst (fun c => c.id == changelistId)
          (fun c => { c with isExpanded := expanded }) s.changelists }

/-- Observable events of the optimistic flow of
`src/utils/optimisticOperation.ts`, in program order. -/
inductive FlowEvent where
  | skipNextRefresh
  | didChange
  | onSuccess
  | onFailure
deriving DecidableEq, Repr

/-- `executeWithOptimisticUI` (optimisticOperation.ts line 3): skip the
watcher, optimistically remove, await the operation (its outcome is the
explicit `operation` argument; a rejection propagates), restore and
report failure only when it resolves to `false`. -/
def executeWithOptimisticUI (s : Store) (fileIds : List String)
    (operation : Except Unit Bool) : Store × Except Unit Bool × List FlowEvent :=
  let r := s.removeCommittedFiles fileIds
  match operation with
  | Except.error e =>
    (r.1, Except.error e, [FlowEvent.skipNextRefresh, FlowEvent.didChange])
  | Except.ok true =>
    (r.1, Except.ok true,
     [FlowEvent.skipNextRefresh, FlowEvent.didChange, FlowEvent.onSuccess])
  | Except.ok false =>
    ((r.1.restoreFiles r.2.1).1, Except.ok false,
     [FlowEvent.skipNextRefresh, FlowEvent.didChange, FlowEvent.didChange,
      FlowEvent.onFailure])

/-! ### Concrete sample data used by scenario theorems and witnesses -/

/-- A tracked sample file with id "A". -/
def sampleA (sel : Bool) (cid : Option String) : FileItem :=
  { id := "A", path := "a.ts", name := "a.ts", status := FileStatus.modified,
    isSelected := sel, changelistId := cid, relativePath := "a.ts" }

/-- A tracked sample file with id "B". -/
def sampleB : FileItem :=
  { id := "B", path := "b.ts", name := "b.ts", status := FileStatus.modified,
    isSelected := false, changelistId := none, relativePath := "b.ts" }

/-- An untracked sample file with id "U". -/
def sampleU : FileItem :=
  { id := "U", path := "u.ts", name := "u.ts", status := FileStatus.untracked,
    isSelected := false, changelistId := none, relativePath := "u.ts" }

/-- The default changelist as seeded at construction. -/
def sampleDefaultCL : Changelist :=
  { id := DefaultChangelistId, name := DefaultChangelistName, files := [],
    isDefault := true, isExpanded := false }

/-- A custom changelist "Feature X" holding file A, selected. -/
def sampleFeatureX : Changelist :=
  { id := "fx", name := "Feature X", files := [sampleA true (some "fx")],
    isDefault := false, isExpanded := true }

/-- A store holding the default changelist and "Feature X". -/
def sampleStore : Store :=
  { changelists := [sampleDefaultCL, sampleFeatureX], unversionedFiles := [],
    unversionedFilesExpanded := true }

/-- `sampleStore` with the untracked file U in the unversioned
bucket. -/
def sampleStoreU : Store :=
  { sampleStore with unversionedFiles := [sampleU] }

/-- A store with two selected files: B (selected) in the default
changelist and A (selected) in "Feature X" — the C4 scenario of an
optimistic commit of two selected files. -/
def c4Store : Store :=
  { changelists :=
      [{ sampleDefaultCL with files := [{ sampleB with isSelected := true }] },
       sampleFeatureX],
    unversionedFiles := [], unversionedFilesExpanded := true }

/-- Index of the changelist that the `gitFiles.forEach` body of
`loadGitStatus` pushes a tracked file into: the first changelist with
the recorded assigned id when an assignment is recorded (`none` — file
dropped — when no changelist has that id), otherwise the first default
changelist. -/
def codeTargetIdx (assignMap : List (String × String)) (cls : List Changelist)
    (f : FileItem) : Option Nat :=
  match mapGet assignMap f.id with
  | some cid => findIdxQ (fun c => c.id == cid) cls
  | none => findIdxQ (fun c => c.isDefault) cls

/-- The spec's rule (§4.2) for the target changelist of a fetched
tracked file, stated in the spec's words: "if the id has a recorded
assignment AND that changelist still exists, assign there; otherwise
assign to the default changelist". -/
def specTargetIdx (s : Store) (f : FileItem) : Option Nat :=
  match mapGet (buildAssignmentMap s) f.id with
  | some cid =>
    if s.changelists.any (fun c => c.id == cid) then
      findIdxQ (fun c => c.id == cid) s.changelists
    else findIdxQ (fun c => c.isDefault) s.changelists
  | none => findIdxQ (fun c => c.isDefault) s.changelists

/-- Total number of files across all changelists' file lists. -/
def totalCLFiles (cls : List Changelist) : Nat :=
  (cls.map (fun c => c.files.length)).sum

/-- Characterization of the snapshot built by `removeCommittedFiles`
over distinct changelist ids: one entry per changelist with a non-empty
removed set, in changelist order. -/
def snapOf (fileIds : List String) : List Changelist → List (String × List FileItem)
  | [] => []
  | c :: cs =>
    if (c.files.filter (fun f => fileIds.contains f.id)).length > 0 then
      (c.id, c.files.filter (fun f => fileIds.contains f.id)) :: snapOf fileIds cs
    else snapOf fileIds cs

/-- The changelists component of the `restoreFiles` loop (the sentinel
entry only touches the unversioned bucket). -/
def restoreCls : List (String × List FileItem) → List Changelist → List Changelist
  | [], cls => cls
  | e :: es, cls =>
    restoreCls es
      (if e.1 == UnversionedSnapshotKey then cls
       else updateFirst (fun c => c.id == e.1)
         (fun c => { c with files := c.files ++ e.2 }) cls)

/-- Two changelists describe the same container with the same file set:
all fields agree except that the file list may be reordered. -/
def containerMatch (c c' : Changelist) : Prop :=
  c'.id = c.id ∧ c'.name = c.name ∧ c'.isDefault = c.isDefault ∧
  c'.isExpanded = c.isExpanded ∧ c'.files.Perm c.files

/-- One public mutation step of the store: each constructor is one of
the `CommitStore` methods applied with arbitrary arguments (and, for
the operations that await the VCS backend or generate ids, an arbitrary
outcome).  `renameChangelist` contributes a step only when it returns
normally — when it throws, the store was not modified. -/
inductive Step : Store → Store → Prop where
  | refresh (s : Store) (q : Except Unit (List FileItem × List FileItem)) :
      Step s (s.refresh q).1
  | createChangelist (s : Store) (newId newName : String) :
      Step s (s.createChangelist newId newName).1
  | deleteChangelist (s : Store) (cid : String) :
      Step s (s.deleteChangelist cid).1
  | renameChangelist (s : Store) (cid nn : String) (r : Store × List StoreEvent) :
      s.renameChangelist cid nn = Except.ok r → Step s r.1
  | moveFileToChangelist (s : Store) (fid tid : String) (ar : Except Unit Unit) :
      Step s (s.moveFileToChangelist fid tid ar).1
  | moveChangelistFiles (s : Store) (src tgt : String) :
      Step s (s.moveChangelistFiles src tgt).1
  | toggleFileSelection (s : Store) (fid : String) (sel : Option Bool) :
      Step s (s.toggleFileSelection fid sel).1
  | toggleChangelistSelection (s : Store) (cid : String) (b : Bool) :
      Step s (s.toggleChangelistSelection cid b).1
  | toggleUnversionedSelection (s : Store) (b : Bool) :
      Step s (s.toggleUnversionedSelection b).1
  | selectAllFiles (s : Store) : Step s s.selectAllFiles.1
  | deselectAllFiles (s : Store) : Step s s.deselectAllFiles.1
  | collapseAll (s : Store) : Step s s.collapseAll.1
  | removeCommittedFiles (s : Store) (ids : List String) :
      Step s (s.removeCommittedFiles ids).1
  | restoreFiles (s : Store) (snap : List (String × List FileItem)) :
      Step s (s.restoreFiles snap).1
  | setUnversionedExpanded (s : Store) (b : Bool) :
      Step s (s.setUnversionedExpanded b)
  | setChangelistExpanded (s : Store) (cid : String) (b : Bool) :
      Step s (s.setChangelistExpanded cid b)

/-- States reachable from construction by any sequence of store
operations. -/
inductive Reachable : Store → Prop where
  | init : Reachable Store.init
  | step {s t : Store} : Reachable s → Step s t → Reachable t

/-- The inductive shape of the default-changelist invariant: the head
of the changelist list is the default one and no other changelist is
default. -/
def headIsOnlyDefault (cls : List Changelist) : Prop :=
  ∃ c cs, cls = c :: cs ∧ c.isDefault = true ∧ ∀ x ∈ cs, x.isDefault = false

/-- The (id, isSelected) pairs of the files of the first changelist
satisfying `p` — the observation used by scenario theorems. -/
def idSelOf (cls : List Changelist) (p : Changelist → Bool) :
    Option (List (String × Bool)) :=
  (cls.find? p).map (fun c => c.files.map (fun f => (f.id, f.isSelected)))

/-- The store after the C1 refresh: the backend reports A (same id,
fetched fresh and unselected) plus a previously unseen tracked B. -/
def c1After : Store :=
  (sampleStore.refresh (Except.ok ([sampleA false none, sampleB], []))).1

/-! ### Theorems -/

/-! #### Generic lemmas about the loop helpers -/

theorem updateFirst_of_all_neg {α : Type} {p : α → Bool} {g : α → α} {l : List α}
    (h : ∀ a ∈ l, p a = false) : updateFirst p g l = l := by
  induction l with
  | nil => rfl
  | cons a as ih =>
    simp only [updateFirst, h a (by simp)]
    simp only [List.mem_cons, forall_eq_or_imp] at h
    simp [ih h.2]

theorem map_updateFirst {α β : Type} {p : α → Bool} {g : α → α} (h : α → β)
    (hg : ∀ a, h (g a) = h a) (l : List α) :
    (updateFirst p g l).map h = l.map h := by
  induction l with
  | nil => rfl
  | cons a as ih =>
    by_cases hp : p a = true
    · simp [updateFirst, hp, hg]
    · simp only [Bool.not_eq_true] at hp
      simp [updateFirst, hp, ih]

theorem length_updateFirst {α : Type} (p : α → Bool) (g : α → α) (l : List α) :
    (updateFirst p g l).length = l.length := by
  induction l with
  | nil => rfl
  | cons a as ih =>
    by_cases hp : p a = true
    · simp [updateFirst, hp]
    · simp only [Bool.not_eq_true] at hp
      simp [updateFirst, hp, ih]

theorem findIdxQ_of_all_neg {α : Type} {p : α → Bool} {l : List α}
    (h : ∀ a ∈ l, p a = false) : findIdxQ p l = none := by
  induction l with
  | nil => rfl
  | cons a as ih =>
    simp only [List.mem_cons, forall_eq_or_imp] at h
    simp [findIdxQ, h.1, ih h.2]

theorem findIdxQ_lt_length {α : Type} {p : α → Bool} {l : List α} {i : Nat}
    (h : findIdxQ p l = some i) : i < l.length := by
  induction l generalizing i with
  | nil => simp [findIdxQ] at h
  | cons a as ih =>
    by_cases hp : p a = true
    · simp only [findIdxQ, hp, if_true, Option.some.injEq] at h
      simp [← h]
    · simp only [Bool.not_eq_true] at hp
      simp only [findIdxQ, hp, Bool.false_eq_true, if_false, Option.map_eq_some'] at h
      obtain ⟨j, hj, rfl⟩ := h
      have := ih hj
      simp only [List.length_cons]
      omega

theorem updateFirst_getElem? {α : Type} (p : α → Bool) (g : α → α) (l : List α) (i : Nat) :
    (updateFirst p g l)[i]? =
      if findIdxQ p l = some i then (l[i]?).map g else l[i]? := by
  induction l generalizing i with
  | nil => simp [updateFirst, findIdxQ]
  | cons a as ih =>
    by_cases hp : p a = true
    · cases i with
      | zero => simp [updateFirst, findIdxQ, hp]
      | succ j => simp [updateFirst, findIdxQ, hp]
    · simp only [Bool.not_eq_true] at hp
      cases i with
      | zero =>
        simp [updateFirst, findIdxQ, hp]
      | succ j =>
        simp only [updateFirst, hp, Bool.false_eq_true, if_false, findIdxQ,
          List.getElem?_cons_succ, ih]
        by_cases hj : findIdxQ p as = some j
        · simp [hj]
        · simp only [hj, if_false]
          have : ((findIdxQ p as).map (· + 1) = some (j + 1)) ↔ findIdxQ p as = some j := by
            simp [Option.map_eq_some']
          simp [this, hj]

theorem findIdxQ_updateFirst {α : Type} (p q : α → Bool) (g : α → α) (l : List α)
    (hg : ∀ a, p (g a) = p a) : findIdxQ p (updateFirst q g l) = findIdxQ p l := by
  induction l with
  | nil => rfl
  | cons a as ih =>
    by_cases hq : q a = true
    · simp [updateFirst, findIdxQ, hq, hg]
    · simp only [Bool.not_eq_true] at hq
      simp [updateFirst, findIdxQ, hq, ih]

theorem find?_eq_of_findIdxQ {α : Type} {p : α → Bool} {l : List α} {i : Nat}
    (h : findIdxQ p l = some i) : l.find? p = l[i]? := by
  induction l generalizing i with
  | nil => simp [findIdxQ] at h
  | cons a as ih =>
    by_cases hp : p a = true
    · simp [findIdxQ, hp] at h
      simp [List.find?_cons_of_pos, hp, ← h]
    · simp only [Bool.not_eq_true] at hp
      simp only [findIdxQ, hp, Bool.false_eq_true, if_false, Option.map_eq_some'] at h
      obtain ⟨j, hj, rfl⟩ := h
      simp [List.find?_cons_of_neg, hp, ih hj]

theorem findIdxQ_of_find?_none {α : Type} {p : α → Bool} {l : List α}
    (h : l.find? p = none) : findIdxQ p l = none := by
  apply findIdxQ_of_all_neg
  intro a ha
  exact Bool.not_eq_true _ ▸ (List.find?_eq_none.mp h a ha)

theorem findIdxQ_isSome_of_mem {α : Type} {p : α → Bool} {l : List α} {a : α}
    (ha : a ∈ l) (hp : p a = true) : ∃ i, findIdxQ p l = some i := by
  induction l with
  | nil => simp at ha
  | cons b bs ih =>
    by_cases hb : p b = true
    · exact ⟨0, by simp [findIdxQ, hb]⟩
    · simp only [Bool.not_eq_true] at hb
      rcases List.mem_cons.mp ha with rfl | ha'
      · rw [hp] at hb; cases hb
      · obtain ⟨i, hi⟩ := ih ha'
        exact ⟨i + 1, by simp [findIdxQ, hb, hi]⟩

/-! #### Lemmas about the JS `Map` model -/

theorem mem_mapSet {α : Type} {m : List (String × α)} {k : String} {v : α}
    {x : String × α} (hx : x ∈ mapSet m k v) : x = (k, v) ∨ x ∈ m := by
  unfold mapSet at hx
  by_cases h : m.any (fun p => p.1 == k) = true
  · simp only [h, if_true, List.mem_map] at hx
    obtain ⟨p, hp, hpx⟩ := hx
    by_cases hk : (p.1 == k) = true
    · simp [hk] at hpx; left; exact hpx.symm
    · simp only [Bool.not_eq_true] at hk
      simp [hk] at hpx; right; exact hpx ▸ hp
  · simp only [Bool.not_eq_true] at h
    simp only [h, Bool.false_eq_true, if_false, List.mem_append, List.mem_singleton] at hx
    tauto

theorem mapGet_some_mem {α : Type} {m : List (String × α)} {k : String} {v : α}
    (h : mapGet m k = some v) : ∃ x ∈ m, x.1 = k ∧ x.2 = v := by
  unfold mapGet at h
  simp only [Option.map_eq_some'] at h
  obtain ⟨x, hx, rfl⟩ := h
  have hmem := List.mem_of_find?_eq_some hx
  have hpred := List.find?_some hx
  simp only [beq_iff_eq] at hpred
  exact ⟨x, hmem, hpred, rfl⟩

theorem mapSet_fresh {α : Type} {m : List (String × α)} {k : String} (v : α)
    (h : ∀ x ∈ m, x.1 ≠ k) : mapSet m k v = m ++ [(k, v)] := by
  unfold mapSet
  have : m.any (fun p => p.1 == k) = false := by
    simp only [List.any_eq_false]
    intro x hx
    simp [beq_iff_eq, h x hx]
  simp [this]

/-- **C1**: for a store holding a custom changelist "Feature X" that
contains tracked file A with `isSelected = true`, `refresh()` with the
backend reporting A (same id) plus a previously unseen tracked file B
leaves A in "Feature X" with `isSelected = true` (and nothing else
there), and places B in the default changelist with
`isSelected = false`. -/
theorem refresh_reconciliation_keeps_assignment_and_selection :
    idSelOf c1After.changelists (fun c => c.id == "fx") = some [("A", true)] ∧
    idSelOf c1After.changelists (fun c => c.isDefault) = some [("B", false)] := by
  decide

theorem removeFileFromChangelists_eq_none {fileId : String} {cls : List Changelist}
    (h : ∀ c ∈ cls, ∀ f ∈ c.files, (f.id == fileId) = false) :
    removeFileFromChangelists fileId cls = none := by
  induction cls with
  | nil => rfl
  | cons c cs ih =>
    simp only [List.mem_cons, forall_eq_or_imp] at h
    have hfind : c.files.find? (fun f => f.id == fileId) = none :=
      List.find?_eq_none.mpr (fun f hf => by simp [h.1 f hf])
    simp [removeFileFromChangelists, hfind, ih h.2]

theorem eraseP_append_found_perm {α : Type} {p : α → Bool} {l : List α} {f : α}
    (h : l.find? p = some f) : (l.eraseP p ++ [f]).Perm l := by
  induction l with
  | nil => simp at h
  | cons a as ih =>
    by_cases hp : p a = true
    · rw [List.find?_cons_of_pos _ hp] at h
      injection h with h
      subst h
      simp only [List.eraseP_cons_of_pos hp]
      exact List.perm_append_singleton a as
    · simp only [Bool.not_eq_true] at hp
      rw [List.find?_cons, hp] at h
      simp only [List.eraseP_cons, hp, List.cons_append]
      exact (ih h).cons a

/-- **C5**: `moveFileToChangelist(fileId, targetId)` where the file is
found in the unversioned bucket (and nowhere in the changelists), the
target changelist exists, and the backend's `addFileToGit` call fails:
the file ends up back in the unversioned bucket with all its fields
unchanged (the bucket is a permutation of the previous one, so every
field of every file — status, `changelistId`, selection — is
preserved), no changelist's file list gains the file (the changelists
are exactly as before), the expand flag is untouched, the method
returns normally, and only the general change notification fires. -/
theorem moveFile_untracked_add_failure_failsafe
    (s : Store) (fileId targetId : String)
    (hcl : ∀ c ∈ s.changelists, ∀ f ∈ c.files, f.id ≠ fileId)
    (hunv : ∃ f ∈ s.unversionedFiles, f.id = fileId)
    (htgt : ∃ c ∈ s.changelists, c.id = targetId) :
    (s.moveFileToChangelist fileId targetId (Except.error ())).1.changelists
        = s.changelists ∧
    ((s.moveFileToChangelist fileId targetId (Except.error ())).1.unversionedFiles).Perm
        s.unversionedFiles ∧
    (s.moveFileToChangelist fileId targetId (Except.error ())).1.unversionedFilesExpanded
        = s.unversionedFilesExpanded ∧
    (s.moveFileToChangelist fileId targetId (Except.error ())).2
        = [StoreEvent.didChange] := by
  have hrem : removeFileFromChangelists fileId s.changelists = none :=
    removeFileFromChangelists_eq_none (fun c hc f hf => by simp [hcl c hc f hf])
  obtain ⟨f0, hf0m, hf0id⟩ := hunv
  have hfindsome : (s.unversionedFiles.find? (fun f => f.id == fileId)).isSome := by
    rw [List.find?_isSome]
    exact ⟨f0, hf0m, by simp [hf0id]⟩
  obtain ⟨fw, hfw⟩ := Option.isSome_iff_exists.mp hfindsome
  have hany : s.changelists.any (fun c => c.id == targetId) = true := by
    rw [List.any_eq_true]
    obtain ⟨c, hc, hcid⟩ := htgt
    exact ⟨c, hc, by simp [hcid]⟩
  simp only [Store.moveFileToChangelist, hrem, hfw, hany, Bool.not_true,
    Bool.false_eq_true, if_false]
  refine ⟨rfl, ?_, rfl, rfl⟩
  exact eraseP_append_found_perm hfw

/-- Witness for C5 at a concrete store: untracked file U in the bucket,
target "fx" present, `addFileToGit` rejected. -/
theorem moveFile_untracked_add_failure_failsafe_witness :
    ((sampleStoreU.moveFileToChangelist "U" "fx" (Except.error ())).1.changelists
        = sampleStoreU.changelists ∧
    (((sampleStoreU.moveFileToChangelist "U" "fx"
        (Except.error ())).1.unversionedFiles).Perm sampleStoreU.unversionedFiles) ∧
    (sampleStoreU.moveFileToChangelist "U" "fx"
        (Except.error ())).1.unversionedFilesExpanded
        = sampleStoreU.unversionedFilesExpanded ∧
    (sampleStoreU.moveFileToChangelist "U" "fx" (Except.error ())).2
        = [StoreEvent.didChange]) :=
  moveFile_untracked_add_failure_failsafe sampleStoreU "U" "fx"
    (by decide) (by decide) (by decide)

theorem mem_updateFirst_of_find? {α : Type} {p : α → Bool} {g : α → α} {l : List α}
    {a : α} (h : l.find? p = some a) : g a ∈ updateFirst p g l := by
  induction l with
  | nil => simp at h
  | cons b bs ih =>
    by_cases hb : p b = true
    · rw [List.find?_cons_of_pos _ hb] at h
      injection h with h
      subst h
      simp [updateFirst, hb]
    · simp only [Bool.not_eq_true] at hb
      rw [List.find?_cons, hb] at h
      simp only [updateFirst, hb, Bool.false_eq_true, if_false]
      exact List.mem_cons_of_mem b (ih h)

theorem find?_id_eq_of_mem {cls : List Changelist} {c : Changelist} {cid : String}
    (hnd : (cls.map (fun x => x.id)).Nodup) (hc : c ∈ cls) (hcid : c.id = cid) :
    cls.find? (fun x => x.id == cid) = some c := by
  have hsome : (cls.find? (fun x => x.id == cid)).isSome := by
    rw [List.find?_isSome]
    exact ⟨c, hc, by simp [hcid]⟩
  obtain ⟨b, hb⟩ := Option.isSome_iff_exists.mp hsome
  have hbm := List.mem_of_find?_eq_some hb
  have hbid : b.id = cid := by
    have := List.find?_some hb
    simpa [beq_iff_eq] using this
  have : b = c := List.inj_on_of_nodup_map hnd hbm hc (by rw [hbid, hcid])
  rw [hb, this]

theorem find?_default_eq_of_unique {cls : List Changelist} {d : Changelist}
    (hd : d ∈ cls) (hdd : d.isDefault = true)
    (huniq : ∀ x ∈ cls, x.isDefault = true → x = d) :
    cls.find? (fun x => x.isDefault) = some d := by
  have hsome : (cls.find? (fun x => x.isDefault)).isSome := by
    rw [List.find?_isSome]
    exact ⟨d, hd, hdd⟩
  obtain ⟨b, hb⟩ := Option.isSome_iff_exists.mp hsome
  rw [hb, huniq b (List.mem_of_find?_eq_some hb) (List.find?_some hb)]

/-- Shared analysis of the file-transferring branch of
`deleteChangelist`: the deleted changelist `c` is found and not
default, the first default is `d`.  The default ends up with exactly
its old files followed by `c`'s files (the transferred `FileItem`
values, `changelistId` field included, are untouched), the deleted id
is gone, the unversioned bucket is untouched, and one change
notification fires. -/
theorem deleteChangelist_transfer {s : Store} {cid : String} {c d : Changelist}
    (hnd : (s.changelists.map (fun x => x.id)).Nodup)
    (hfc : s.changelists.find? (fun x => x.id == cid) = some c)
    (hcnd : c.isDefault = false)
    (hfd : s.changelists.find? (fun x => x.isDefault) = some d) :
    (s.deleteChangelist cid).2 = [StoreEvent.didChange] ∧
    (∃ d' ∈ (s.deleteChangelist cid).1.changelists,
        d'.isDefault = true ∧ d'.files = d.files ++ c.files) ∧
    (∀ c' ∈ (s.deleteChangelist cid).1.changelists, c'.id ≠ cid) ∧
    (s.deleteChangelist cid).1.unversionedFiles = s.unversionedFiles := by
  have hcm := List.mem_of_find?_eq_some hfc
  have hcid : c.id = cid := by simpa [beq_iff_eq] using List.find?_some hfc
  have hdm := List.mem_of_find?_eq_some hfd
  have hdd : d.isDefault = true := List.find?_some hfd
  have hdne : d.id ≠ cid := by
    intro hdid
    have : d = c := List.inj_on_of_nodup_map hnd hdm hcm (by rw [hdid, hcid])
    rw [this, hcnd] at hdd
    cases hdd
  simp only [Store.deleteChangelist, hfc, hcnd, Bool.false_eq_true, if_false]
  refine ⟨trivial, ?_, ?_, trivial⟩
  · refine ⟨(fun x => if c.files.length > 0 then
        { x with files := x.files ++ c.files } else x) d, ?_, ?_, ?_⟩
    · apply List.mem_filter.mpr
      constructor
      · exact mem_updateFirst_of_find? hfd
      · by_cases hlen : c.files.length > 0 <;> simp [hlen, hdne]
    · by_cases hlen : c.files.length > 0 <;> simp [hlen, hdd]
    · by_cases hlen : c.files.length > 0
      · simp [hlen]
      · have : c.files = [] := List.length_eq_zero.mp (by omega)
        simp [hlen, this]
  · intro c' hc'
    have := (List.mem_filter.mp hc').2
    simpa [beq_iff_eq] using this

/-- **C8**: `deleteChangelist(id)` is a no-op (store and events both
unchanged) when the id is not found or names the default changelist;
otherwise every file the deleted changelist held is present in the
default changelist's file list, appended after the default's previous
files, and the deleted changelist's id no longer appears among the
changelists. -/
theorem deleteChangelist_cases (s : Store) (cid : String)
    (hnd : (s.changelists.map (fun x => x.id)).Nodup) :
    ((∀ c ∈ s.changelists, c.id ≠ cid) → s.deleteChangelist cid = (s, [])) ∧
    (∀ c ∈ s.changelists, c.id = cid → c.isDefault = true →
        s.deleteChangelist cid = (s, [])) ∧
    (∀ c ∈ s.changelists, c.id = cid → c.isDefault = false →
      ∀ d ∈ s.changelists, d.isDefault = true →
        (∀ x ∈ s.changelists, x.isDefault = true → x = d) →
        (s.deleteChangelist cid).2 = [StoreEvent.didChange] ∧
        (∃ d' ∈ (s.deleteChangelist cid).1.changelists,
            d'.isDefault = true ∧ d'.files = d.files ++ c.files) ∧
        (∀ c' ∈ (s.deleteChangelist cid).1.changelists, c'.id ≠ cid)) := by
  refine ⟨?_, ?_, ?_⟩
  · intro h
    have hnone : s.changelists.find? (fun x => x.id == cid) = none :=
      List.find?_eq_none.mpr (fun c hc => by simp [h c hc])
    simp [Store.deleteChangelist, hnone]
  · intro c hc hcid hcd
    have hfc := find?_id_eq_of_mem hnd hc hcid
    simp [Store.deleteChangelist, hfc, hcd]
  · intro c hc hcid hcnd d hd hdd huniq
    have hfc := find?_id_eq_of_mem hnd hc hcid
    have hfd := find?_default_eq_of_unique hd hdd huniq
    obtain ⟨hev, hdefault, hgone, _⟩ := deleteChangelist_transfer hnd hfc hcnd hfd
    exact ⟨hev, hdefault, hgone⟩

/-- Witness for C8: concrete no-op cases and the concrete transfer of
"Feature X"'s single file into the default changelist. -/
theorem deleteChangelist_cases_witness :
    (sampleStore.deleteChangelist "missing" = (sampleStore, [])) ∧
    (sampleStore.deleteChangelist DefaultChangelistId = (sampleStore, [])) ∧
    ((sampleStore.deleteChangelist "fx").2 = [StoreEvent.didChange] ∧
      (∃ d' ∈ (sampleStore.deleteChangelist "fx").1.changelists,
          d'.isDefault = true ∧
          d'.files = sampleDefaultCL.files ++ sampleFeatureX.files) ∧
      (∀ c' ∈ (sampleStore.deleteChangelist "fx").1.changelists, c'.id ≠ "fx")) := by
  refine ⟨?_, ?_, ?_⟩
  · exact (deleteChangelist_cases sampleStore "missing" (by decide)).1 (by decide)
  · exact (deleteChangelist_cases sampleStore DefaultChangelistId (by decide)).2.1
      sampleDefaultCL (by decide) (by decide) (by decide)
  · exact (deleteChangelist_cases sampleStore "fx" (by decide)).2.2
      sampleFeatureX (by decide) (by decide) (by decide)
      sampleDefaultCL (by decide) (by decide) (by decide)

theorem findIdxQ_of_find?_some {α : Type} {p : α → Bool} {l : List α} {a : α}
    (h : l.find? p = some a) : ∃ i, findIdxQ p l = some i ∧ l[i]? = some a := by
  obtain ⟨i, hi⟩ :=
    findIdxQ_isSome_of_mem (List.mem_of_find?_eq_some h) (List.find?_some h)
  exact ⟨i, hi, by rw [← find?_eq_of_findIdxQ hi, h]⟩

/-- **C10**: when `deleteChangelist` transfers a non-default
changelist's files into the default changelist, the transferred
`FileItem` values are appended unchanged — in particular each file's
`changelistId` field still holds the deleted changelist's id, it is not
rewritten to the default's id.  `moveChangelistFiles`, by contrast,
appends the moved files with `changelistId` rewritten to the target's
id on every file. -/
theorem deleteChangelist_keeps_changelistId_unlike_move
    (s : Store) (cid : String) (c d : Changelist)
    (hnd : (s.changelists.map (fun x => x.id)).Nodup)
    (hfc : s.changelists.find? (fun x => x.id == cid) = some c)
    (hcnd : c.isDefault = false)
    (hfd : s.changelists.find? (fun x => x.isDefault) = some d)
    (t : Store) (src tgt : String) (sc tc : Changelist)
    (hsrc : t.changelists.find? (fun x => x.id == src) = some sc)
    (htc : t.changelists.find? (fun x => x.id == tgt) = some tc)
    (hst : src ≠ tgt) :
    (∃ d' ∈ (s.deleteChangelist cid).1.changelists,
        d'.isDefault = true ∧ d'.files = d.files ++ c.files) ∧
    (∃ t' ∈ (t.moveChangelistFiles src tgt).1.changelists,
        t'.id = tgt ∧
        t'.files = tc.files ++ sc.files.map (fun f => { f with changelistId := some tgt })) := by
  refine ⟨(deleteChangelist_transfer hnd hfc hcnd hfd).2.1, ?_⟩
  obtain ⟨j, hj, hjget⟩ := findIdxQ_of_find?_some hsrc
  obtain ⟨i, hi, higet⟩ := findIdxQ_of_find?_some htc
  have hscid : sc.id = src := by simpa [beq_iff_eq] using List.find?_some hsrc
  have htcid : tc.id = tgt := by simpa [beq_iff_eq] using List.find?_some htc
  have hij : i ≠ j := by
    intro hij
    subst hij
    rw [higet] at hjget
    injection hjget with hjget
    exact hst (by rw [← hscid, ← hjget, htcid])
  simp only [Store.moveChangelistFiles, hsrc, htc]
  have hstable : findIdxQ (fun x => x.id == tgt)
      (updateFirst (fun x => x.id == src) (fun c => { c with files := [] })
        t.changelists) = some i := by
    have hstab := findIdxQ_updateFirst (fun x : Changelist => x.id == tgt)
      (fun x => x.id == src) (fun c => { c with files := [] }) t.changelists
      (fun a => rfl)
    rw [hstab]
    exact hi
  have hcls1 : (updateFirst (fun x => x.id == src) (fun c => { c with files := [] })
      t.changelists)[i]? = some tc := by
    rw [updateFirst_getElem?]
    simp only [hj]
    rw [if_neg (by simpa using fun h => hij h.symm)]
    exact higet
  have hcls2 : (updateFirst (fun x => x.id == tgt)
      (fun x => { x with
        files := x.files ++ sc.files.map (fun f => { f with changelistId := some tgt }),
        isExpanded := true })
      (updateFirst (fun x => x.id == src) (fun c => { c with files := [] })
        t.changelists))[i]? = some { tc with
          files := tc.files ++ sc.files.map (fun f => { f with changelistId := some tgt }),
          isExpanded := true } := by
    rw [updateFirst_getElem?, if_pos hstable, hcls1]
    rfl
  exact ⟨_, List.getElem?_mem hcls2, htcid, rfl⟩

/-- Witness for C10: deleting "Feature X" transfers its file (with
`changelistId` still "fx") into the default changelist of
`sampleStore`; moving "Feature X"'s files to the default changelist
rewrites their `changelistId` to "default". -/
theorem deleteChangelist_keeps_changelistId_unlike_move_witness :
    (∃ d' ∈ (sampleStore.deleteChangelist "fx").1.changelists,
        d'.isDefault = true ∧
        d'.files = sampleDefaultCL.files ++ sampleFeatureX.files) ∧
    (∃ t' ∈ (sampleStore.moveChangelistFiles "fx" DefaultChangelistId).1.changelists,
        t'.id = DefaultChangelistId ∧
        t'.files = sampleDefaultCL.files ++ sampleFeatureX.files.map
          (fun f => { f with changelistId := some DefaultChangelistId })) :=
  deleteChangelist_keeps_changelistId_unlike_move
    sampleStore "fx" sampleFeatureX sampleDefaultCL
    (by decide) (by decide) (by decide) (by decide)
    sampleStore "fx" DefaultChangelistId sampleFeatureX sampleDefaultCL
    (by decide) (by decide) (by decide)

theorem removeFileFromChangelists_some_of_contains {fid : String} {cls : List Changelist}
    (h : ∃ c ∈ cls, ∃ f ∈ c.files, f.id = fid) :
    ∃ r, removeFileFromChangelists fid cls = some r ∧
      totalCLFiles r.2 + 1 = totalCLFiles cls := by
  induction cls with
  | nil => simp at h
  | cons c cs ih =>
    cases hfind : c.files.find? (fun f => f.id == fid) with
    | some f =>
      refine ⟨(f, { c with files := c.files.eraseP (fun g => g.id == fid) } :: cs),
        by simp [removeFileFromChangelists, hfind], ?_⟩
      have hmem := List.mem_of_find?_eq_some hfind
      have hpf := List.find?_some hfind
      have hlen : (c.files.eraseP (fun g => g.id == fid)).length + 1 = c.files.length := by
        rw [List.length_eraseP_of_mem hmem hpf]
        have : 0 < c.files.length := List.length_pos.mpr (by rintro hnil; rw [hnil] at hmem; simp at hmem)
        omega
      simp only [totalCLFiles, List.map_cons, List.sum_cons]
      omega
    | none =>
      have hnc : ∀ f ∈ c.files, f.id ≠ fid := by
        intro f hf
        have := List.find?_eq_none.mp hfind f hf
        simpa [beq_iff_eq] using this
      have hcs : ∃ c' ∈ cs, ∃ f ∈ c'.files, f.id = fid := by
        obtain ⟨c', hc', f, hf, hfid⟩ := h
        rcases List.mem_cons.mp hc' with rfl | hc''
        · exact absurd hfid (hnc f hf)
        · exact ⟨c', hc'', f, hf, hfid⟩
      obtain ⟨r', hr', htot⟩ := ih hcs
      refine ⟨(r'.1, c :: r'.2), by simp [removeFileFromChangelists, hfind, hr'], ?_⟩
      simp only [totalCLFiles, List.map_cons, List.sum_cons] at htot ⊢
      omega

theorem removeFileFromChangelists_shape {fid : String} {cls : List Changelist}
    {r : FileItem × List Changelist} (h : removeFileFromChangelists fid cls = some r) :
    r.2.map (fun c => (c.id, c.isDefault)) = cls.map (fun c => (c.id, c.isDefault)) := by
  induction cls generalizing r with
  | nil => simp [removeFileFromChangelists] at h
  | cons c cs ih =>
    cases hfind : c.files.find? (fun f => f.id == fid) with
    | some f =>
      simp only [removeFileFromChangelists, hfind, Option.some.injEq] at h
      rw [← h]
      simp
    | none =>
      simp only [removeFileFromChangelists, hfind, Option.map_eq_some'] at h
      obtain ⟨r', hr', hr⟩ := h
      rw [← hr]
      simp only [List.map_cons]
      rw [ih hr']

/-- Counterexample to **C9** as stated: the claim asserts every
not-found condition is a state-preserving no-op that still fires the
general change notification.  At concrete inputs: `deleteChangelist`
with an unknown id fires no event at all (the event list is `[]`, not
`[didChange]`), `renameChangelist` with an unknown id also fires
nothing, and `moveFileToChangelist` of a known file to an unknown
target changelist id does NOT leave the store unchanged — the file is
dropped from its container. -/
theorem notFound_noop_counterexample :
    (sampleStore.deleteChangelist "missing").2 = [] ∧
    sampleStore.renameChangelist "missing" "Y" = Except.ok (sampleStore, []) ∧
    (sampleStoreU.moveFileToChangelist "U" "missing" (Except.ok ())).1 ≠ sampleStoreU :=
  ⟨rfl, rfl, by decide⟩

/-- **C9** (amended): `moveFileToChangelist` with an unknown file id
leaves the store unchanged and fires the general change notification;
`moveFileToChangelist` with a known file id but an unknown target
changelist id fires the notification but removes the found file from
its container without re-inserting it anywhere (the store is NOT
unchanged); `deleteChangelist` and `renameChangelist` with an unknown
id leave the store unchanged but fire no notification at all. -/
theorem notFound_behavior (s : Store) (fileId targetId cid newName : String)
    (ar : Except Unit Unit) :
    ((∀ c ∈ s.changelists, ∀ f ∈ c.files, f.id ≠ fileId) →
      (∀ f ∈ s.unversionedFiles, f.id ≠ fileId) →
      s.moveFileToChangelist fileId targetId ar = (s, [StoreEvent.didChange])) ∧
    ((∃ f ∈ s.unversionedFiles, f.id = fileId) →
      (∀ c ∈ s.changelists, ∀ f ∈ c.files, f.id ≠ fileId) →
      (∀ c ∈ s.changelists, c.id ≠ targetId) →
      s.moveFileToChangelist fileId targetId ar =
        ({ s with unversionedFiles := s.unversionedFiles.eraseP (fun g => g.id == fileId) },
         [StoreEvent.didChange]) ∧
      (s.moveFileToChangelist fileId targetId ar).1.unversionedFiles.length + 1
        = s.unversionedFiles.length) ∧
    ((∃ c ∈ s.changelists, ∃ f ∈ c.files, f.id = fileId) →
      (∀ c ∈ s.changelists, c.id ≠ targetId) →
      (s.moveFileToChangelist fileId targetId ar).2 = [StoreEvent.didChange] ∧
      (s.moveFileToChangelist fileId targetId ar).1.unversionedFiles
        = s.unversionedFiles ∧
      totalCLFiles (s.moveFileToChangelist fileId targetId ar).1.changelists + 1
        = totalCLFiles s.changelists) ∧
    ((∀ c ∈ s.changelists, c.id ≠ cid) → s.deleteChangelist cid = (s, [])) ∧
    ((∀ c ∈ s.changelists, c.id ≠ cid) →
      s.renameChangelist cid newName = Except.ok (s, [])) := by
  refine ⟨?_, ?_, ?_, ?_, ?_⟩
  · intro hcl hunv
    have hrem : removeFileFromChangelists fileId s.changelists = none :=
      removeFileFromChangelists_eq_none (fun c hc f hf => by simp [hcl c hc f hf])
    have hfu : s.unversionedFiles.find? (fun f => f.id == fileId) = none :=
      List.find?_eq_none.mpr (fun f hf => by simp [hunv f hf])
    simp [Store.moveFileToChangelist, hrem, hfu]
  · intro hunv hcl htgt
    have hrem : removeFileFromChangelists fileId s.changelists = none :=
      removeFileFromChangelists_eq_none (fun c hc f hf => by simp [hcl c hc f hf])
    obtain ⟨f0, hf0m, hf0id⟩ := hunv
    have hfindsome : (s.unversionedFiles.find? (fun f => f.id == fileId)).isSome := by
      rw [List.find?_isSome]
      exact ⟨f0, hf0m, by simp [hf0id]⟩
    obtain ⟨fw, hfw⟩ := Option.isSome_iff_exists.mp hfindsome
    have hany : s.changelists.any (fun c => c.id == targetId) = false := by
      rw [List.any_eq_false]
      intro c hc
      simp [htgt c hc]
    have hres : s.moveFileToChangelist fileId targetId ar =
        ({ s with unversionedFiles :=
            s.unversionedFiles.eraseP (fun g => g.id == fileId) },
         [StoreEvent.didChange]) := by
      simp [Store.moveFileToChangelist, hrem, hfw, hany]
    refine ⟨hres, ?_⟩
    rw [hres]
    have hfwm := List.mem_of_find?_eq_some hfw
    have hfwp := List.find?_some hfw
    rw [List.length_eraseP_of_mem hfwm hfwp]
    have : 0 < s.unversionedFiles.length :=
      List.length_pos.mpr (by rintro hnil; rw [hnil] at hfwm; simp at hfwm)
    omega
  · intro hcl htgt
    obtain ⟨⟨f, cls'⟩, hr, htot⟩ := removeFileFromChangelists_some_of_contains hcl
    have hids : cls'.map (fun c => (c.id, c.isDefault))
        = s.changelists.map (fun c => (c.id, c.isDefault)) :=
      removeFileFromChangelists_shape hr
    have hany : cls'.any (fun c => c.id == targetId) = false := by
      rw [List.any_eq_false]
      intro c hc
      have hmm : (c.id, c.isDefault) ∈ cls'.map (fun c => (c.id, c.isDefault)) :=
        List.mem_map_of_mem _ hc
      rw [hids] at hmm
      obtain ⟨y, hy, hyid⟩ := List.mem_map.mp hmm
      have : y.id = c.id := congrArg Prod.fst hyid
      simp [← this, htgt y hy]
    have hres : s.moveFileToChangelist fileId targetId ar =
        ({ s with changelists := cls' }, [StoreEvent.didChange]) := by
      simp [Store.moveFileToChangelist, hr, hany]
    rw [hres]
    exact ⟨rfl, rfl, htot⟩
  · intro h
    have hnone : s.changelists.find? (fun x => x.id == cid) = none :=
      List.find?_eq_none.mpr (fun c hc => by simp [h c hc])
    simp [Store.deleteChangelist, hnone]
  · intro h
    have hnone : s.changelists.find? (fun x => x.id == cid) = none :=
      List.find?_eq_none.mpr (fun c hc => by simp [h c hc])
    simp [Store.renameChangelist, hnone]

/-- Witness for the amended C9 at concrete inputs. -/
theorem notFound_behavior_witness :
    (sampleStoreU.moveFileToChangelist "Z" "fx" (Except.ok ())
        = (sampleStoreU, [StoreEvent.didChange])) ∧
    ((sampleStoreU.moveFileToChangelist "U" "missing"
        (Except.ok ())).1.unversionedFiles.length + 1
        = sampleStoreU.unversionedFiles.length) ∧
    (totalCLFiles (sampleStore.moveFileToChangelist "A" "missing"
        (Except.ok ())).1.changelists + 1 = totalCLFiles sampleStore.changelists) ∧
    (sampleStore.deleteChangelist "missing" = (sampleStore, [])) ∧
    (sampleStore.renameChangelist "missing" "Y" = Except.ok (sampleStore, [])) := by
  refine ⟨?_, ?_, ?_, ?_, ?_⟩
  · exact (notFound_behavior sampleStoreU "Z" "fx" "" "" (Except.ok ())).1
      (by decide) (by decide)
  · exact ((notFound_behavior sampleStoreU "U" "missing" "" "" (Except.ok ())).2.1
      (by decide) (by decide) (by decide)).2
  · exact ((notFound_behavior sampleStore "A" "missing" "" "" (Except.ok ())).2.2.1
      (by decide) (by decide)).2.2
  · exact (notFound_behavior sampleStore "" "" "missing" "" (Except.ok ())).2.2.2.1
      (by decide)
  · exact (notFound_behavior sampleStore "" "" "missing" "Y" (Except.ok ())).2.2.2.2
      (by decide)

theorem removeLoop_fst (fileIds : List String) (cls : List Changelist)
    (snap : List (String × List FileItem)) :
    (removeLoop fileIds cls snap).1 = cls.map
      (fun c => { c with files := c.files.filter (fun f => !(fileIds.contains f.id)) }) := by
  induction cls generalizing snap with
  | nil => rfl
  | cons c cs ih => simp [removeLoop, ih]

theorem snapOf_keys {fileIds : List String} {cls : List Changelist} :
    ∀ e ∈ snapOf fileIds cls, ∃ c ∈ cls, e.1 = c.id := by
  induction cls with
  | nil => intro e he; simp [snapOf] at he
  | cons c cs ih =>
    intro e he
    by_cases hrem : (c.files.filter (fun f => fileIds.contains f.id)).length > 0
    · rw [snapOf, if_pos hrem] at he
      rcases List.mem_cons.mp he with rfl | he'
      · exact ⟨c, List.mem_cons_self c cs, rfl⟩
      · obtain ⟨c', hc', h1⟩ := ih e he'
        exact ⟨c', List.mem_cons_of_mem c hc', h1⟩
    · rw [snapOf, if_neg hrem] at he
      obtain ⟨c', hc', h1⟩ := ih e he
      exact ⟨c', List.mem_cons_of_mem c hc', h1⟩

theorem removeLoop_snd (fileIds : List String) (cls : List Changelist)
    (snap0 : List (String × List FileItem))
    (hnd : (cls.map (fun c => c.id)).Nodup)
    (hdisj : ∀ x ∈ snap0, ∀ c ∈ cls, x.1 ≠ c.id) :
    (removeLoop fileIds cls snap0).2 = snap0 ++ snapOf fileIds cls := by
  induction cls generalizing snap0 with
  | nil => simp [removeLoop, snapOf]
  | cons c cs ih =>
    simp only [List.map_cons, List.nodup_cons] at hnd
    by_cases hrem : (c.files.filter (fun f => fileIds.contains f.id)).length > 0
    · have hfresh : ∀ x ∈ snap0, x.1 ≠ c.id :=
        fun x hx => hdisj x hx c (List.mem_cons_self c cs)
      have hset : mapSet snap0 c.id (c.files.filter (fun f => fileIds.contains f.id))
          = snap0 ++ [(c.id, c.files.filter (fun f => fileIds.contains f.id))] :=
        mapSet_fresh _ hfresh
      have hdisj' : ∀ x ∈ snap0 ++
          [(c.id, c.files.filter (fun f => fileIds.contains f.id))],
          ∀ c' ∈ cs, x.1 ≠ c'.id := by
        intro x hx c' hc'
        rcases List.mem_append.mp hx with hx0 | hx1
        · exact hdisj x hx0 c' (List.mem_cons_of_mem c hc')
        · rw [List.mem_singleton.mp hx1]
          intro hcontra
          have hcontra' : c.id = c'.id := hcontra
          exact hnd.1 (hcontra' ▸ List.mem_map_of_mem (fun c => c.id) hc')
      simp only [removeLoop]
      rw [if_pos hrem, hset, ih _ hnd.2 hdisj', snapOf, if_pos hrem]
      simp
    · have hdisj' : ∀ x ∈ snap0, ∀ c' ∈ cs, x.1 ≠ c'.id :=
        fun x hx c' hc' => hdisj x hx c' (List.mem_cons_of_mem c hc')
      simp only [removeLoop]
      rw [if_neg hrem, ih _ hnd.2 hdisj', snapOf, if_neg hrem]

theorem restoreFold_changelists (snap : List (String × List FileItem)) (st : Store) :
    (snap.foldl restoreStep st).changelists = restoreCls snap st.changelists := by
  induction snap generalizing st with
  | nil => rfl
  | cons e es ih =>
    rw [List.foldl_cons, ih, restoreCls]
    congr 1
    by_cases hk : (e.1 == UnversionedSnapshotKey) = true
    · rw [if_pos hk]
      simp [restoreStep, hk]
    · rw [if_neg hk]
      simp [restoreStep, hk]

theorem restoreFold_unversioned (snap : List (String × List FileItem)) (st : Store) :
    (snap.foldl restoreStep st).unversionedFiles = st.unversionedFiles ++
      ((snap.filter (fun e => e.1 == UnversionedSnapshotKey)).map
        (fun e => e.2)).flatten := by
  induction snap generalizing st with
  | nil => simp
  | cons e es ih =>
    rw [List.foldl_cons, ih, List.filter_cons]
    by_cases hk : (e.1 == UnversionedSnapshotKey) = true
    · rw [if_pos hk]
      have hstep : (restoreStep st e).unversionedFiles
          = st.unversionedFiles ++ e.2 := by
        simp [restoreStep, hk]
      rw [hstep]
      simp [List.append_assoc]
    · rw [if_neg hk]
      have hstep : (restoreStep st e).unversionedFiles = st.unversionedFiles := by
        simp only [Bool.not_eq_true] at hk
        simp [restoreStep, hk]
      rw [hstep]

theorem restoreFold_expanded (snap : List (String × List FileItem)) (st : Store) :
    (snap.foldl restoreStep st).unversionedFilesExpanded
      = st.unversionedFilesExpanded := by
  induction snap generalizing st with
  | nil => rfl
  | cons e es ih =>
    rw [List.foldl_cons, ih]
    by_cases hk : (e.1 == UnversionedSnapshotKey) = true
    · simp [restoreStep, hk]
    · simp only [Bool.not_eq_true] at hk
      simp [restoreStep, hk]

theorem restoreCls_skip_head (snap : List (String × List FileItem))
    (x : Changelist) (xs : List Changelist)
    (h : ∀ e ∈ snap, e.1 = UnversionedSnapshotKey ∨ x.id ≠ e.1) :
    restoreCls snap (x :: xs) = x :: restoreCls snap xs := by
  induction snap generalizing xs with
  | nil => rfl
  | cons e es ih =>
    have hh := h e (List.mem_cons_self e es)
    have ht : ∀ e' ∈ es, e'.1 = UnversionedSnapshotKey ∨ x.id ≠ e'.1 :=
      fun e' he' => h e' (List.mem_cons_of_mem e he')
    rw [restoreCls, restoreCls]
    by_cases hk : (e.1 == UnversionedSnapshotKey) = true
    · rw [if_pos hk, if_pos hk]
      exact ih xs ht
    · have hxe : (x.id == e.1) = false := by
        rcases hh with hh | hh
        · exact absurd (by simp [hh] : (e.1 == UnversionedSnapshotKey) = true) hk
        · simp [beq_iff_eq]
          exact hh
      rw [if_neg hk, if_neg hk]
      have hup : updateFirst (fun c => c.id == e.1)
          (fun c => { c with files := c.files ++ e.2 }) (x :: xs)
          = x :: updateFirst (fun c => c.id == e.1)
            (fun c => { c with files := c.files ++ e.2 }) xs := by
        rw [updateFirst, if_neg (by simp [hxe])]
      rw [hup]
      exact ih _ ht

theorem filter_split_perm (fileIds : List String) (l : List FileItem) :
    (l.filter (fun f => !(fileIds.contains f.id)) ++
      l.filter (fun f => fileIds.contains f.id)).Perm l := by
  have h := List.filter_append_perm (fun f => !(fileIds.contains f.id)) l
  have hcongr : l.filter (fun f => !!(fileIds.contains f.id))
      = l.filter (fun f => fileIds.contains f.id) :=
    List.filter_congr (fun f _ => Bool.not_not _)
  simpa [hcongr] using h

theorem roundtrip_changelists (fileIds : List String) (cls : List Changelist)
    (hnd : (cls.map (fun c => c.id)).Nodup)
    (hkey : ∀ c ∈ cls, c.id ≠ UnversionedSnapshotKey) :
    List.Forall₂ containerMatch cls
      (restoreCls (snapOf fileIds cls)
        (cls.map (fun c =>
          { c with files := c.files.filter (fun f => !(fileIds.contains f.id)) }))) := by
  induction cls with
  | nil => constructor
  | cons c cs ih =>
    simp only [List.map_cons, List.nodup_cons] at hnd
    have hkeyc : c.id ≠ UnversionedSnapshotKey := hkey c (List.mem_cons_self c cs)
    have hkeycs : ∀ c' ∈ cs, c'.id ≠ UnversionedSnapshotKey :=
      fun c' hc' => hkey c' (List.mem_cons_of_mem c hc')
    have hskip : ∀ e ∈ snapOf fileIds cs,
        e.1 = UnversionedSnapshotKey ∨ c.id ≠ e.1 := by
      intro e he
      obtain ⟨c', hc', he1⟩ := snapOf_keys e he
      right
      rw [he1]
      intro hcontra
      exact hnd.1 (hcontra ▸ List.mem_map_of_mem (fun c => c.id) hc')
    have hperm := filter_split_perm fileIds c.files
    by_cases hrem : (c.files.filter (fun f => fileIds.contains f.id)).length > 0
    · have hsnap : snapOf fileIds (c :: cs)
          = (c.id, c.files.filter (fun f => fileIds.contains f.id))
            :: snapOf fileIds cs := by
        rw [snapOf, if_pos hrem]
      rw [hsnap, List.map_cons]
      have hstep : restoreCls
          ((c.id, c.files.filter (fun f => fileIds.contains f.id)) :: snapOf fileIds cs)
          ({ c with files := c.files.filter (fun f => !(fileIds.contains f.id)) } ::
            cs.map (fun c =>
              { c with files := c.files.filter (fun f => !(fileIds.contains f.id)) }))
          = { c with files := c.files.filter (fun f => !(fileIds.contains f.id)) ++
                c.files.filter (fun f => fileIds.contains f.id) } ::
            restoreCls (snapOf fileIds cs)
              (cs.map (fun c =>
                { c with files := c.files.filter (fun f => !(fileIds.contains f.id)) })) := by
        simp only [restoreCls, List.foldl_cons]
        rw [if_neg (by simp [hkeyc])]
        simp only [updateFirst, beq_self_eq_true, if_true]
        exact restoreCls_skip_head _ _ _ hskip
      rw [hstep]
      exact List.Forall₂.cons ⟨rfl, rfl, rfl, rfl, hperm⟩ (ih hnd.2 hkeycs)
    · have hsnap : snapOf fileIds (c :: cs) = snapOf fileIds cs := by
        rw [snapOf, if_neg hrem]
      have hremnil : c.files.filter (fun f => fileIds.contains f.id) = [] :=
        List.length_eq_zero.mp (by omega)
      have hskip' : ∀ e ∈ snapOf fileIds cs, e.1 = UnversionedSnapshotKey ∨
          ({ c with files := c.files.filter (fun f => !(fileIds.contains f.id)) }
            : Changelist).id ≠ e.1 := hskip
      rw [hsnap, List.map_cons, restoreCls_skip_head _ _ _ hskip']
      refine List.Forall₂.cons ⟨rfl, rfl, rfl, rfl, ?_⟩ (ih hnd.2 hkeycs)
      have := hperm
      rw [hremnil, List.append_nil] at this
      exact this

theorem restoreCls_append (a b : List (String × List FileItem))
    (cls : List Changelist) :
    restoreCls (a ++ b) cls = restoreCls b (restoreCls a cls) := by
  induction a generalizing cls with
  | nil => rfl
  | cons e es ih =>
    rw [List.cons_append, restoreCls, restoreCls]
    exact ih _

theorem restoreCls_sentinel (v : List FileItem) (cls : List Changelist) :
    restoreCls [(UnversionedSnapshotKey, v)] cls = cls := by
  rw [restoreCls, if_pos (by simp)]
  rfl

/-- The snapshot returned by `removeCommittedFiles` over distinct
changelist ids none of which is the sentinel key: the per-changelist
entries followed, when the unversioned bucket lost files, by the
sentinel entry. -/
theorem removeCommittedFiles_snapshot (s : Store) (fileIds : List String)
    (hnd : (s.changelists.map (fun c => c.id)).Nodup)
    (hkey : ∀ c ∈ s.changelists, c.id ≠ UnversionedSnapshotKey) :
    (s.removeCommittedFiles fileIds).2.1 =
      snapOf fileIds s.changelists ++
        (if (s.unversionedFiles.filter (fun f => fileIds.contains f.id)).length > 0 then
          [(UnversionedSnapshotKey,
            s.unversionedFiles.filter (fun f => fileIds.contains f.id))]
        else []) := by
  have hsnapcl : (removeLoop fileIds s.changelists []).2
      = snapOf fileIds s.changelists := by
    have h := removeLoop_snd fileIds s.changelists [] hnd (by intro x hx; simp at hx)
    simpa using h
  have hkeys : ∀ e ∈ snapOf fileIds s.changelists, e.1 ≠ UnversionedSnapshotKey := by
    intro e he
    obtain ⟨c, hc, h1⟩ := snapOf_keys e he
    rw [h1]
    exact hkey c hc
  show (if (s.unversionedFiles.filter (fun f => fileIds.contains f.id)).length > 0 then
      mapSet (removeLoop fileIds s.changelists []).2 UnversionedSnapshotKey
        (s.unversionedFiles.filter (fun f => fileIds.contains f.id))
    else (removeLoop fileIds s.changelists []).2) = _
  by_cases hU : (s.unversionedFiles.filter (fun f => fileIds.contains f.id)).length > 0
  · rw [if_pos hU, if_pos hU, hsnapcl,
      mapSet_fresh _ (fun x hx => hkeys x hx)]
  · rw [if_neg hU, if_neg hU, hsnapcl, List.append_nil]

/-- Core round-trip property shared by the C3 and C4 theorems:
`removeCommittedFiles` immediately followed by `restoreFiles` of the
returned snapshot gives every container the same multiset of file
values it had before. -/
theorem roundtrip_core (s : Store) (fileIds : List String)
    (hnd : (s.changelists.map (fun c => c.id)).Nodup)
    (hkey : ∀ c ∈ s.changelists, c.id ≠ UnversionedSnapshotKey) :
    List.Forall₂ containerMatch s.changelists
      ((s.removeCommittedFiles fileIds).1.restoreFiles
        (s.removeCommittedFiles fileIds).2.1).1.changelists ∧
    (((s.removeCommittedFiles fileIds).1.restoreFiles
        (s.removeCommittedFiles fileIds).2.1).1.unversionedFiles).Perm
      s.unversionedFiles ∧
    ((s.removeCommittedFiles fileIds).1.restoreFiles
        (s.removeCommittedFiles fileIds).2.1).1.unversionedFilesExpanded
      = s.unversionedFilesExpanded := by
  have hsnap := removeCommittedFiles_snapshot s fileIds hnd hkey
  have hkeys : ∀ e ∈ snapOf fileIds s.changelists, e.1 ≠ UnversionedSnapshotKey := by
    intro e he
    obtain ⟨c, hc, h1⟩ := snapOf_keys e he
    rw [h1]
    exact hkey c hc
  have hcls1 : (s.removeCommittedFiles fileIds).1.changelists
      = s.changelists.map (fun c =>
          { c with files := c.files.filter (fun f => !(fileIds.contains f.id)) }) :=
    removeLoop_fst fileIds s.changelists []
  refine ⟨?_, ?_, ?_⟩
  · rw [show ((s.removeCommittedFiles fileIds).1.restoreFiles
        (s.removeCommittedFiles fileIds).2.1).1.changelists
        = restoreCls (s.removeCommittedFiles fileIds).2.1
            (s.removeCommittedFiles fileIds).1.changelists from
      restoreFold_changelists _ _, hsnap, hcls1, restoreCls_append]
    by_cases hU : (s.unversionedFiles.filter (fun f => fileIds.contains f.id)).length > 0
    · rw [if_pos hU, restoreCls_sentinel]
      exact roundtrip_changelists fileIds s.changelists hnd hkey
    · rw [if_neg hU]
      show List.Forall₂ containerMatch s.changelists (restoreCls [] _)
      rw [restoreCls]
      exact roundtrip_changelists fileIds s.changelists hnd hkey
  · rw [show ((s.removeCommittedFiles fileIds).1.restoreFiles
        (s.removeCommittedFiles fileIds).2.1).1.unversionedFiles
        = (s.removeCommittedFiles fileIds).1.unversionedFiles ++
          (((s.removeCommittedFiles fileIds).2.1.filter
              (fun e => e.1 == UnversionedSnapshotKey)).map (fun e => e.2)).flatten from
      restoreFold_unversioned _ _, hsnap]
    have hfilnil : (snapOf fileIds s.changelists).filter
        (fun e => e.1 == UnversionedSnapshotKey) = [] :=
      List.filter_eq_nil_iff.mpr (fun e he => by simp [hkeys e he])
    have hkept : (s.removeCommittedFiles fileIds).1.unversionedFiles
        = s.unversionedFiles.filter (fun f => !(fileIds.contains f.id)) := rfl
    rw [hkept]
    by_cases hU : (s.unversionedFiles.filter (fun f => fileIds.contains f.id)).length > 0
    · rw [if_pos hU, List.filter_append, hfilnil,
        List.filter_cons_of_pos (by simp)]
      simp only [List.filter_nil, List.nil_append, List.map_cons, List.map_nil,
        List.flatten_cons, List.flatten_nil, List.append_nil]
      exact filter_split_perm fileIds s.unversionedFiles
    · rw [if_neg hU, List.append_nil, hfilnil]
      simp only [List.map_nil, List.flatten_nil, List.append_nil]
      have hremnil : s.unversionedFiles.filter (fun f => fileIds.contains f.id) = [] :=
        List.length_eq_zero.mp (by omega)
      have h := filter_split_perm fileIds s.unversionedFiles
      rw [hremnil, List.append_nil] at h
      exact h
  · rw [show ((s.removeCommittedFiles fileIds).1.restoreFiles
        (s.removeCommittedFiles fileIds).2.1).1.unversionedFilesExpanded
        = (s.removeCommittedFiles fileIds).1.unversionedFilesExpanded from
      restoreFold_expanded _ _]
    rfl

/-- **C3**: `removeCommittedFiles(S)` followed immediately by
`restoreFiles` on the returned snapshot (no intervening mutation)
yields a state in which every container holds exactly the same set of
files as before: each changelist keeps its id, name, default and
expand flags, and its file list is a permutation of the one before the
removal; the unversioned bucket is likewise a permutation of its prior
content. -/
theorem removeCommitted_restore_roundtrip (s : Store) (fileIds : List String)
    (hnd : (s.changelists.map (fun c => c.id)).Nodup)
    (hkey : ∀ c ∈ s.changelists, c.id ≠ UnversionedSnapshotKey) :
    List.Forall₂ containerMatch s.changelists
      ((s.removeCommittedFiles fileIds).1.restoreFiles
        (s.removeCommittedFiles fileIds).2.1).1.changelists ∧
    (((s.removeCommittedFiles fileIds).1.restoreFiles
        (s.removeCommittedFiles fileIds).2.1).1.unversionedFiles).Perm
      s.unversionedFiles ∧
    ((s.removeCommittedFiles fileIds).1.restoreFiles
        (s.removeCommittedFiles fileIds).2.1).1.unversionedFilesExpanded
      = s.unversionedFilesExpanded :=
  roundtrip_core s fileIds hnd hkey

/-- Witness for C3 at a concrete store: removing file A (and file U
from the bucket) and restoring the snapshot. -/
theorem removeCommitted_restore_roundtrip_witness :
    List.Forall₂ containerMatch sampleStoreU.changelists
      ((sampleStoreU.removeCommittedFiles ["A", "U"]).1.restoreFiles
        (sampleStoreU.removeCommittedFiles ["A", "U"]).2.1).1.changelists ∧
    (((sampleStoreU.removeCommittedFiles ["A", "U"]).1.restoreFiles
        (sampleStoreU.removeCommittedFiles ["A", "U"]).2.1).1.unversionedFiles).Perm
      sampleStoreU.unversionedFiles ∧
    ((sampleStoreU.removeCommittedFiles ["A", "U"]).1.restoreFiles
        (sampleStoreU.removeCommittedFiles ["A", "U"]).2.1).1.unversionedFilesExpanded
      = sampleStoreU.unversionedFilesExpanded :=
  removeCommitted_restore_roundtrip sampleStoreU ["A", "U"] (by decide) (by decide)

/-- **C4**: in `executeWithOptimisticUI` the watcher skip and the
optimistic removal happen before the awaited operation (the emitted
event list always starts `[skipNextRefresh, didChange]`);
`restoreFiles` runs if and only if the operation resolves to `false`:
on `false` the removed files are present again in their original
containers with their original `isSelected` values (every changelist's
file list is a permutation of its prior one, as is the unversioned
bucket), the restore is one atomic notification and the failure
callback fires exactly once; on `true` the success callback fires
exactly once and no restore occurs (the store stays at the
post-removal state with a single notification); a rejected operation
propagates with no restore and no callback. -/
theorem executeWithOptimisticUI_contract (s : Store) (fileIds : List String)
    (op : Except Unit Bool)
    (hnd : (s.changelists.map (fun c => c.id)).Nodup)
    (hkey : ∀ c ∈ s.changelists, c.id ≠ UnversionedSnapshotKey) :
    ((executeWithOptimisticUI s fileIds op).2.2.take 2
        = [FlowEvent.skipNextRefresh, FlowEvent.didChange]) ∧
    (op = Except.ok true →
      (executeWithOptimisticUI s fileIds op).1 = (s.removeCommittedFiles fileIds).1 ∧
      (executeWithOptimisticUI s fileIds op).2.2
        = [FlowEvent.skipNextRefresh, FlowEvent.didChange, FlowEvent.onSuccess]) ∧
    (op = Except.ok false →
      (executeWithOptimisticUI s fileIds op).2.2
        = [FlowEvent.skipNextRefresh, FlowEvent.didChange, FlowEvent.didChange,
           FlowEvent.onFailure] ∧
      List.Forall₂ containerMatch s.changelists
        (executeWithOptimisticUI s fileIds op).1.changelists ∧
      ((executeWithOptimisticUI s fileIds op).1.unversionedFiles).Perm
        s.unversionedFiles ∧
      (executeWithOptimisticUI s fileIds op).1.unversionedFilesExpanded
        = s.unversionedFilesExpanded) ∧
    (∀ e, op = Except.error e →
      (executeWithOptimisticUI s fileIds op).1 = (s.removeCommittedFiles fileIds).1 ∧
      (executeWithOptimisticUI s fileIds op).2.2
        = [FlowEvent.skipNextRefresh, FlowEvent.didChange]) := by
  cases op with
  | error e =>
    refine ⟨rfl, ?_, ?_, ?_⟩
    · intro h; exact absurd h (by simp)
    · intro h; exact absurd h (by simp)
    · intro e' _; exact ⟨rfl, rfl⟩
  | ok b =>
    cases b with
    | true =>
      refine ⟨rfl, ?_, ?_, ?_⟩
      · intro _; exact ⟨rfl, rfl⟩
      · intro h; exact absurd h (by simp)
      · intro e' h; exact absurd h (by simp)
    | false =>
      refine ⟨rfl, ?_, ?_, ?_⟩
      · intro h; exact absurd h (by simp)
      · intro _; exact ⟨rfl, roundtrip_core s fileIds hnd hkey⟩
      · intro e' h; exact absurd h (by simp)

/-- Witness for C4: the claim's scenario — an optimistic commit of the
two selected files of `c4Store` whose operation resolves to `false` —
plus the success path on the same store. -/
theorem executeWithOptimisticUI_contract_witness :
    ((executeWithOptimisticUI c4Store ["A", "B"] (Except.ok false)).2.2
        = [FlowEvent.skipNextRefresh, FlowEvent.didChange, FlowEvent.didChange,
           FlowEvent.onFailure] ∧
      List.Forall₂ containerMatch c4Store.changelists
        (executeWithOptimisticUI c4Store ["A", "B"] (Except.ok false)).1.changelists ∧
      ((executeWithOptimisticUI c4Store ["A", "B"]
          (Except.ok false)).1.unversionedFiles).Perm c4Store.unversionedFiles ∧
      (executeWithOptimisticUI c4Store ["A", "B"]
          (Except.ok false)).1.unversionedFilesExpanded
        = c4Store.unversionedFilesExpanded) ∧
    ((executeWithOptimisticUI c4Store ["A", "B"] (Except.ok true)).1
        = (c4Store.removeCommittedFiles ["A", "B"]).1 ∧
      (executeWithOptimisticUI c4Store ["A", "B"] (Except.ok true)).2.2
        = [FlowEvent.skipNextRefresh, FlowEvent.didChange, FlowEvent.onSuccess]) :=
  ⟨(executeWithOptimisticUI_contract c4Store ["A", "B"] (Except.ok false)
      (by decide) (by decide)).2.2.1 rfl,
   (executeWithOptimisticUI_contract c4Store ["A", "B"] (Except.ok true)
      (by decide) (by decide)).2.1 rfl⟩

theorem restoreSel_id (sm : List (String × Bool)) (f : FileItem) :
    (restoreSel sm f).id = f.id := by
  unfold restoreSel
  cases mapGet sm f.id <;> rfl

theorem restoreSel_status (sm : List (String × Bool)) (f : FileItem) :
    (restoreSel sm f).status = f.status := by
  unfold restoreSel
  cases mapGet sm f.id <;> rfl

theorem all_neg_of_findIdxQ_none {α : Type} {p : α → Bool} {l : List α}
    (h : findIdxQ p l = none) : ∀ a ∈ l, p a = false := by
  intro a ha
  by_cases hp : p a = true
  · obtain ⟨i, hi⟩ := findIdxQ_isSome_of_mem ha hp
    rw [hi] at h
    cases h
  · simpa using hp

theorem findIdxQ_map {α β : Type} (p : β → Bool) (h : α → β) (l : List α) :
    findIdxQ p (l.map h) = findIdxQ (fun a => p (h a)) l := by
  induction l with
  | nil => rfl
  | cons a as ih => simp [findIdxQ, ih]

theorem findIdxQ_congr {α : Type} {p q : α → Bool} {l : List α}
    (h : ∀ a ∈ l, p a = q a) : findIdxQ p l = findIdxQ q l := by
  induction l with
  | nil => rfl
  | cons a as ih =>
    simp only [List.mem_cons, forall_eq_or_imp] at h
    simp [findIdxQ, h.1, ih h.2]

theorem codeTargetIdx_updateFirst (am : List (String × String))
    (cls : List Changelist) (q : Changelist → Bool) (g : Changelist → Changelist)
    (hgid : ∀ c, (g c).id = c.id) (hgdef : ∀ c, (g c).isDefault = c.isDefault)
    (f : FileItem) :
    codeTargetIdx am (updateFirst q g cls) f = codeTargetIdx am cls f := by
  unfold codeTargetIdx
  cases mapGet am f.id with
  | some cid =>
    exact findIdxQ_updateFirst _ _ _ _ (fun a => by rw [hgid])
  | none =>
    exact findIdxQ_updateFirst _ _ _ _ (fun a => by rw [hgdef])

theorem codeTargetIdx_eq_of_id {am : List (String × String)} {cls : List Changelist}
    {f f' : FileItem} (h : f'.id = f.id) :
    codeTargetIdx am cls f' = codeTargetIdx am cls f := by
  unfold codeTargetIdx
  rw [h]

theorem mem_files_foldl_mapSet {v : String} {files : List FileItem}
    {m0 : List (String × String)} {x : String × String}
    (hx : x ∈ files.foldl (fun m f => mapSet m f.id v) m0) :
    x.2 = v ∨ x ∈ m0 := by
  induction files generalizing m0 with
  | nil => exact Or.inr hx
  | cons f fs ih =>
    rcases ih hx with h | h
    · exact Or.inl h
    · rcases mem_mapSet h with h1 | h1
      · left; rw [h1]
      · exact Or.inr h1

theorem assignmentMap_values (s : Store) :
    ∀ k cid, mapGet (buildAssignmentMap s) k = some cid →
      ∃ c ∈ s.changelists, c.id = cid := by
  have main : ∀ (cls : List Changelist) (m0 : List (String × String)),
      (∀ c ∈ cls, c ∈ s.changelists) →
      (∀ x ∈ m0, ∃ c ∈ s.changelists, c.id = x.2) →
      ∀ x ∈ cls.foldl
        (fun m c => c.files.foldl (fun m f => mapSet m f.id c.id) m) m0,
        ∃ c ∈ s.changelists, c.id = x.2 := by
    intro cls
    induction cls with
    | nil => intro m0 _ hm0 x hx; exact hm0 x hx
    | cons c cs ih =>
      intro m0 hsub hm0 x hx
      rw [List.foldl_cons] at hx
      refine ih _ (fun c' hc' => hsub c' (List.mem_cons_of_mem c hc')) ?_ x hx
      intro y hy
      rcases mem_files_foldl_mapSet hy with h | h
      · exact ⟨c, hsub c (List.mem_cons_self c cs), h.symm⟩
      · exact hm0 y h
  intro k cid h
  obtain ⟨x, hx, _, hx2⟩ := mapGet_some_mem h
  obtain ⟨c, hc, hcid⟩ :=
    main s.changelists [] (fun c hc => hc) (by intro y hy; simp at hy) x hx
  exact ⟨c, hc, by rw [hcid, hx2]⟩

theorem codeTargetIdx_cleared (s : Store) (f : FileItem) :
    codeTargetIdx (buildAssignmentMap s)
      (s.changelists.map (fun c => { c with files := [] })) f
      = specTargetIdx s f := by
  cases hm : mapGet (buildAssignmentMap s) f.id with
  | some cid =>
    obtain ⟨c, hc, hcid⟩ := assignmentMap_values s f.id cid hm
    have hany : s.changelists.any (fun c => c.id == cid) = true := by
      rw [List.any_eq_true]
      exact ⟨c, hc, by simp [hcid]⟩
    simp only [codeTargetIdx, specTargetIdx, hm, hany, if_true, findIdxQ_map]
  | none =>
    simp only [codeTargetIdx, specTargetIdx, hm, findIdxQ_map]

/-- Characterization of the placement fold of `loadGitStatus`: the
changelist at index `i` ends with its prior files followed by exactly
those fetched files (selection restored, `changelistId` set to the
changelist's id) that are tracked and whose target index is `i`. -/
theorem placeAll_getElem (am : List (String × String)) (sm : List (String × Bool))
    (g : List FileItem) :
    ∀ (cls : List Changelist) (i : Nat),
      (g.foldl (placeGitFile am sm) cls)[i]? =
        (cls[i]?).map (fun c =>
          { c with files := c.files ++
              (((g.map (restoreSel sm)).filter (fun f =>
                  !(f.status == FileStatus.untracked) &&
                  (codeTargetIdx am cls f == some i))).map
                (fun f => { f with changelistId := some c.id })) }) := by
  induction g with
  | nil =>
    intro cls i
    cases hc : cls[i]? with
    | none => simp [hc]
    | some c => simp [hc]
  | cons f fs ih =>
    intro cls i
    rw [List.foldl_cons, List.map_cons, List.filter_cons]
    by_cases hU : ((restoreSel sm f).status == FileStatus.untracked) = true
    · have hplace : placeGitFile am sm cls f = cls := by
        simp only [placeGitFile]
        rw [if_pos hU]
      have hcond : (!((restoreSel sm f).status == FileStatus.untracked) &&
          (codeTargetIdx am cls (restoreSel sm f) == some i)) = false := by
        simp [hU]
      rw [hplace, ih cls i, hcond]
      simp only [Bool.false_eq_true, if_false]
    · have hU' : ((restoreSel sm f).status == FileStatus.untracked) = false := by
        simpa using hU
      cases hm : mapGet am (restoreSel sm f).id with
      | some cid =>
        have hplace : placeGitFile am sm cls f =
            updateFirst (fun c => c.id == cid)
              (fun c => { c with files := c.files ++
                [{ restoreSel sm f with changelistId := some c.id }] }) cls := by
          simp only [placeGitFile, hU', Bool.false_eq_true, if_false, hm]
        have hct : codeTargetIdx am cls (restoreSel sm f)
            = findIdxQ (fun c => c.id == cid) cls := by
          simp only [codeTargetIdx, hm]
        have hstab : ∀ f' : FileItem,
            codeTargetIdx am (updateFirst (fun c => c.id == cid)
              (fun c => { c with files := c.files ++
                [{ restoreSel sm f with changelistId := some c.id }] }) cls) f'
            = codeTargetIdx am cls f' :=
          fun f' => codeTargetIdx_updateFirst am cls (fun c => c.id == cid)
            (fun c => { c with files := c.files ++
              [{ restoreSel sm f with changelistId := some c.id }] })
            (fun c => rfl) (fun c => rfl) f'
        rw [hplace, ih _ i]
        simp only [hstab]
        rw [updateFirst_getElem?]
        by_cases hidx : findIdxQ (fun c => c.id == cid) cls = some i
        · have hcond : (!((restoreSel sm f).status == FileStatus.untracked) &&
              (codeTargetIdx am cls (restoreSel sm f) == some i)) = true := by
            rw [hU', hct, hidx]
            simp
          rw [if_pos hidx, hcond, if_pos rfl]
          cases hcl : cls[i]? with
          | none => simp
          | some c =>
            simp only [Option.map_some', Option.some.injEq, List.map_cons]
            congr 1
            simp [List.append_assoc]
        · have hcond : (!((restoreSel sm f).status == FileStatus.untracked) &&
              (codeTargetIdx am cls (restoreSel sm f) == some i)) = false := by
            rw [hU', hct]
            simp only [Bool.not_false, Bool.true_and]
            exact beq_eq_false_iff_ne.mpr hidx
          rw [if_neg hidx, hcond]
          simp only [Bool.false_eq_true, if_false]
      | none =>
        have hplace : placeGitFile am sm cls f =
            updateFirst (fun c => c.isDefault)
              (fun c => { c with files := c.files ++
                [{ restoreSel sm f with changelistId := some c.id }] }) cls := by
          simp only [placeGitFile, hU', Bool.false_eq_true, if_false, hm]
        have hct : codeTargetIdx am cls (restoreSel sm f)
            = findIdxQ (fun c => c.isDefault) cls := by
          simp only [codeTargetIdx, hm]
        have hstab : ∀ f' : FileItem,
            codeTargetIdx am (updateFirst (fun c => c.isDefault)
              (fun c => { c with files := c.files ++
                [{ restoreSel sm f with changelistId := some c.id }] }) cls) f'
            = codeTargetIdx am cls f' :=
          fun f' => codeTargetIdx_updateFirst am cls (fun c => c.isDefault)
            (fun c => { c with files := c.files ++
              [{ restoreSel sm f with changelistId := some c.id }] })
            (fun c => rfl) (fun c => rfl) f'
        rw [hplace, ih _ i]
        simp only [hstab]
        rw [updateFirst_getElem?]
        by_cases hidx : findIdxQ (fun c => c.isDefault) cls = some i
        · have hcond : (!((restoreSel sm f).status == FileStatus.untracked) &&
              (codeTargetIdx am cls (restoreSel sm f) == some i)) = true := by
            rw [hU', hct, hidx]
            simp
          rw [if_pos hidx, hcond, if_pos rfl]
          cases hcl : cls[i]? with
          | none => simp
          | some c =>
            simp only [Option.map_some', Option.some.injEq, List.map_cons]
            congr 1
            simp [List.append_assoc]
        · have hcond : (!((restoreSel sm f).status == FileStatus.untracked) &&
              (codeTargetIdx am cls (restoreSel sm f) == some i)) = false := by
            rw [hU', hct]
            simp only [Bool.not_false, Bool.true_and]
            exact beq_eq_false_iff_ne.mpr hidx
          rw [if_neg hidx, hcond]
          simp only [Bool.false_eq_true, if_false]

theorem specTargetIdx_lt (s : Store) (f : FileItem) (i : Nat)
    (h : specTargetIdx s f = some i) : i < s.changelists.length := by
  unfold specTargetIdx at h
  split at h
  · split at h
    · exact findIdxQ_lt_length h
    · exact findIdxQ_lt_length h
  · exact findIdxQ_lt_length h

/-- **C2**: during reconciliation every freshly fetched tracked
(non-Untracked) file is placed into exactly one changelist: the store's
changelists after `loadGitStatus` contain a file with its id exactly at
the index given by the spec's rule (`specTargetIdx`: the changelist
recorded for the id if that changelist still exists, otherwise the
default changelist) — in particular, as long as a default changelist
exists, no fetched tracked file is left out of every changelist. -/
theorem loadGitStatus_places_each_tracked_file (s : Store) (g u : List FileItem)
    (hdef : ∃ c ∈ s.changelists, c.isDefault = true) :
    ∀ f ∈ g, f.status ≠ FileStatus.untracked →
      ∃ i, specTargetIdx s f = some i ∧
        (∃ c, ((loadGitStatusOk s g u).changelists)[i]? = some c ∧
          c.files.any (fun x => x.id == f.id) = true) ∧
        (∀ j c, ((loadGitStatusOk s g u).changelists)[j]? = some c →
          c.files.any (fun x => x.id == f.id) = true → j = i) := by
  intro f hf htrk
  have hex : ∃ i, specTargetIdx s f = some i := by
    cases hm : mapGet (buildAssignmentMap s) f.id with
    | some cid =>
      obtain ⟨c, hc, hcid⟩ := assignmentMap_values s f.id cid hm
      have hany : s.changelists.any (fun c => c.id == cid) = true :=
        List.any_eq_true.mpr ⟨c, hc, by simp [hcid]⟩
      have hsome : ∃ i, findIdxQ (fun c : Changelist => c.id == cid)
          s.changelists = some i :=
        findIdxQ_isSome_of_mem hc (by simp [hcid])
      obtain ⟨i, hi⟩ := hsome
      exact ⟨i, by simp only [specTargetIdx, hm, hany, if_true, hi]⟩
    | none =>
      obtain ⟨d, hd, hdd⟩ := hdef
      have hsome : ∃ i, findIdxQ (fun c : Changelist => c.isDefault)
          s.changelists = some i :=
        findIdxQ_isSome_of_mem hd hdd
      obtain ⟨i, hi⟩ := hsome
      exact ⟨i, by simp only [specTargetIdx, hm, hi]⟩
  obtain ⟨i, hspec⟩ := hex
  have hlt : i < s.changelists.length := specTargetIdx_lt s f i hspec
  have hcode : codeTargetIdx (buildAssignmentMap s)
      (s.changelists.map (fun c => { c with files := [] })) f = some i := by
    rw [codeTargetIdx_cleared]
    exact hspec
  have hcondf : (!((restoreSel (buildSelectionMap s) f).status
        == FileStatus.untracked) &&
      (codeTargetIdx (buildAssignmentMap s)
        (s.changelists.map (fun c => { c with files := [] }))
        (restoreSel (buildSelectionMap s) f) == some i)) = true := by
    have h1 : ((restoreSel (buildSelectionMap s) f).status
        == FileStatus.untracked) = false := by
      rw [restoreSel_status]
      exact beq_eq_false_iff_ne.mpr htrk
    have h2 : codeTargetIdx (buildAssignmentMap s)
        (s.changelists.map (fun c => { c with files := [] }))
        (restoreSel (buildSelectionMap s) f) = some i := by
      rw [codeTargetIdx_eq_of_id (restoreSel_id _ _)]
      exact hcode
    rw [h1, h2]
    simp
  refine ⟨i, hspec, ?_, ?_⟩
  · obtain ⟨c0, hc0⟩ : ∃ c0,
        ((s.changelists.map (fun c => { c with files := [] })))[i]? = some c0 := by
      have hlt' : i < (s.changelists.map (fun c => { c with files := [] })).length := by
        rw [List.length_map]
        exact hlt
      exact ⟨_, List.getElem?_eq_getElem hlt'⟩
    have h1 := placeAll_getElem (buildAssignmentMap s) (buildSelectionMap s) g
      (s.changelists.map (fun c => { c with files := [] })) i
    rw [hc0] at h1
    simp only [Option.map_some'] at h1
    refine ⟨_, h1, ?_⟩
    rw [List.any_eq_true]
    refine ⟨{ restoreSel (buildSelectionMap s) f with changelistId := some c0.id },
      ?_, ?_⟩
    · apply List.mem_append_right
      exact List.mem_map_of_mem _
        (List.mem_filter.mpr ⟨List.mem_map_of_mem _ hf, hcondf⟩)
    · show ((restoreSel (buildSelectionMap s) f).id == f.id) = true
      rw [restoreSel_id]
      exact beq_self_eq_true f.id
  · intro j c hj hany
    have hj' : ((g.foldl (placeGitFile (buildAssignmentMap s) (buildSelectionMap s))
        (s.changelists.map (fun c => { c with files := [] }))))[j]? = some c := hj
    rw [placeAll_getElem (buildAssignmentMap s) (buildSelectionMap s) g
      (s.changelists.map (fun c => { c with files := [] })) j] at hj'
    obtain ⟨c0, hc0, rfl⟩ := Option.map_eq_some'.mp hj'
    rw [List.getElem?_map] at hc0
    obtain ⟨corig, hcorig, rfl⟩ := Option.map_eq_some'.mp hc0
    obtain ⟨x, hx, hxid⟩ := List.any_eq_true.mp hany
    rw [show ({ corig with files := [] } : Changelist).files = [] from rfl,
      List.nil_append] at hx
    obtain ⟨f', hf', rfl⟩ := List.mem_map.mp hx
    have hcondf' := (List.mem_filter.mp hf').2
    have htgt : codeTargetIdx (buildAssignmentMap s)
        (s.changelists.map (fun c => { c with files := [] })) f' = some j := by
      have hsplit := (Bool.and_eq_true _ _).mp hcondf'
      exact (beq_iff_eq).mp hsplit.2
    have hfid : f'.id = f.id :=
      beq_iff_eq.mp (show (f'.id == f.id) = true from hxid)
    rw [codeTargetIdx_eq_of_id hfid, hcode] at htgt
    injection htgt with htgt
    exact htgt.symm

/-- Witness for C2: file A (recorded in "Feature X") and the fresh file
B, refreshed against `sampleStore`. -/
theorem loadGitStatus_places_each_tracked_file_witness :
    (∃ c ∈ sampleStore.changelists, c.isDefault = true) ∧
    (∀ f ∈ [sampleA false none, sampleB], f.status ≠ FileStatus.untracked →
      ∃ i, specTargetIdx sampleStore f = some i ∧
        (∃ c, ((loadGitStatusOk sampleStore [sampleA false none, sampleB]
            []).changelists)[i]? = some c ∧
          c.files.any (fun x => x.id == f.id) = true) ∧
        (∀ j c, ((loadGitStatusOk sampleStore [sampleA false none, sampleB]
            []).changelists)[j]? = some c →
          c.files.any (fun x => x.id == f.id) = true → j = i)) :=
  ⟨by decide,
   loadGitStatus_places_each_tracked_file sampleStore
     [sampleA false none, sampleB] [] (by decide)⟩

theorem headIsOnlyDefault_of_map_eq {cls cls' : List Changelist}
    (h : cls'.map (fun c => c.isDefault) = cls.map (fun c => c.isDefault))
    (hinv : headIsOnlyDefault cls) : headIsOnlyDefault cls' := by
  obtain ⟨c, cs, rfl, hc, hcs⟩ := hinv
  cases cls' with
  | nil => simp at h
  | cons c' cs' =>
    simp only [List.map_cons, List.cons.injEq] at h
    refine ⟨c', cs', rfl, by rw [h.1, hc], ?_⟩
    intro x hx
    have hmx : x.isDefault ∈ cs'.map (fun c => c.isDefault) :=
      List.mem_map_of_mem _ hx
    rw [h.2] at hmx
    obtain ⟨y, hy, hyx⟩ := List.mem_map.mp hmx
    rw [← hyx]
    exact hcs y hy

theorem flags_of_shape {l l' : List Changelist}
    (h : l'.map (fun c => (c.id, c.isDefault)) = l.map (fun c => (c.id, c.isDefault))) :
    l'.map (fun c => c.isDefault) = l.map (fun c => c.isDefault) := by
  have h2 := congrArg (List.map Prod.snd) h
  simpa [List.map_map, Function.comp] using h2

theorem flags_placeGitFile (am : List (String × String)) (sm : List (String × Bool))
    (cls : List Changelist) (f : FileItem) :
    (placeGitFile am sm cls f).map (fun c => c.isDefault)
      = cls.map (fun c => c.isDefault) := by
  by_cases hU : ((restoreSel sm f).status == FileStatus.untracked) = true
  · have hplace : placeGitFile am sm cls f = cls := by
      simp only [placeGitFile]
      rw [if_pos hU]
    rw [hplace]
  · have hU' : ((restoreSel sm f).status == FileStatus.untracked) = false := by
      simpa using hU
    cases hm : mapGet am (restoreSel sm f).id with
    | some cid =>
      have hplace : placeGitFile am sm cls f =
          updateFirst (fun c => c.id == cid)
            (fun c => { c with files := c.files ++
              [{ restoreSel sm f with changelistId := some c.id }] }) cls := by
        simp only [placeGitFile, hU', Bool.false_eq_true, if_false, hm]
      rw [hplace]
      apply map_updateFirst
      intro a
      rfl
    | none =>
      have hplace : placeGitFile am sm cls f =
          updateFirst (fun c => c.isDefault)
            (fun c => { c with files := c.files ++
              [{ restoreSel sm f with changelistId := some c.id }] }) cls := by
        simp only [placeGitFile, hU', Bool.false_eq_true, if_false, hm]
      rw [hplace]
      apply map_updateFirst
      intro a
      rfl

theorem flags_refresh (s : Store) (q : Except Unit (List FileItem × List FileItem)) :
    ((s.refresh q).1.changelists).map (fun c => c.isDefault)
      = s.changelists.map (fun c => c.isDefault) := by
  cases q with
  | error e => rfl
  | ok r =>
    show ((r.1.foldl (placeGitFile (buildAssignmentMap s) (buildSelectionMap s))
        (s.changelists.map (fun c => { c with files := [] }))).map
        (fun c => c.isDefault)) = _
    have hbase : ∀ (g : List FileItem) (cls : List Changelist),
        ((g.foldl (placeGitFile (buildAssignmentMap s) (buildSelectionMap s))
          cls).map (fun c => c.isDefault)) = cls.map (fun c => c.isDefault) := by
      intro g
      induction g with
      | nil => intro cls; rfl
      | cons f fs ih =>
        intro cls
        rw [List.foldl_cons, ih, flags_placeGitFile]
    rw [hbase]
    simp [List.map_map, Function.comp]

theorem flags_restoreCls (snap : List (String × List FileItem)) :
    ∀ cls : List Changelist,
      (restoreCls snap cls).map (fun c => c.isDefault)
        = cls.map (fun c => c.isDefault) := by
  induction snap with
  | nil => intro cls; rfl
  | cons e es ih =>
    intro cls
    rw [restoreCls]
    by_cases hk : (e.1 == UnversionedSnapshotKey) = true
    · rw [if_pos hk, ih]
    · rw [if_neg hk, ih]
      apply map_updateFirst
      intro a
      rfl

theorem flags_map (t : Changelist → Changelist)
    (ht : ∀ c, (t c).isDefault = c.isDefault) (cls : List Changelist) :
    ((cls.map t).map (fun c => c.isDefault)) = cls.map (fun c => c.isDefault) := by
  induction cls with
  | nil => rfl
  | cons c cs ih => simp [ht, ih]

theorem headIsOnlyDefault_create (s : Store) (nid nn : String)
    (h : headIsOnlyDefault s.changelists) :
    headIsOnlyDefault ((s.createChangelist nid nn).1.changelists) := by
  obtain ⟨c, cs, hcls, hc, hcs⟩ := h
  refine ⟨c,
    cs ++ [({ id := nid, name := nn, files := [], isDefault := false, isExpanded := true } : Changelist)],
    ?_, hc, ?_⟩
  · show s.changelists ++ [_] = _
    rw [hcls, List.cons_append]
  · intro x hx
    rcases List.mem_append.mp hx with h1 | h1
    · exact hcs x h1
    · rw [List.mem_singleton.mp h1]

theorem headIsOnlyDefault_delete (s : Store) (cid : String)
    (h : headIsOnlyDefault s.changelists) :
    headIsOnlyDefault ((s.deleteChangelist cid).1.changelists) := by
  obtain ⟨c, cs, hcls, hc, hcs⟩ := h
  cases hfind : s.changelists.find? (fun x => x.id == cid) with
  | none =>
    simp only [Store.deleteChangelist, hfind]
    exact ⟨c, cs, hcls, hc, hcs⟩
  | some ch =>
    by_cases hdef : ch.isDefault = true
    · simp only [Store.deleteChangelist, hfind, hdef, if_true]
      exact ⟨c, cs, hcls, hc, hcs⟩
    · have hcid : (c.id == cid) = false := by
        by_contra hx
        have hx' : (c.id == cid) = true := by simpa using hx
        have hfc : List.find? (fun x : Changelist => x.id == cid) (c :: cs)
            = some c := List.find?_cons_of_pos _ hx'
        rw [hcls, hfc] at hfind
        injection hfind with hh
        rw [← hh] at hdef
        exact hdef hc
      simp only [Store.deleteChangelist, hfind, hdef, Bool.false_eq_true, if_false]
      rw [hcls]
      have hup : updateFirst (fun x => x.isDefault)
          (fun d => if ch.files.length > 0 then
            { d with files := d.files ++ ch.files } else d) (c :: cs)
          = (if ch.files.length > 0 then
              { c with files := c.files ++ ch.files } else c) :: cs := by
        rw [updateFirst, if_pos hc]
      rw [hup]
      have hgid : (if ch.files.length > 0 then
          { c with files := c.files ++ ch.files } else c).id = c.id := by
        by_cases hl : ch.files.length > 0 <;> simp [hl]
      have hgdef : (if ch.files.length > 0 then
          { c with files := c.files ++ ch.files } else c).isDefault = c.isDefault := by
        by_cases hl : ch.files.length > 0 <;> simp [hl]
      rw [List.filter_cons_of_pos (by rw [hgid, hcid]; rfl)]
      refine ⟨_, _, rfl, by rw [hgdef, hc], ?_⟩
      intro x hx
      exact hcs x (List.mem_of_mem_filter hx)

theorem flags_rename (s : Store) (cid nn : String) (r : Store × List StoreEvent)
    (h : s.renameChangelist cid nn = Except.ok r) :
    (r.1.changelists).map (fun c => c.isDefault)
      = s.changelists.map (fun c => c.isDefault) := by
  cases hfind : s.changelists.find? (fun c => c.id == cid) with
  | none =>
    simp only [Store.renameChangelist, hfind] at h
    injection h with h
    rw [← h]
  | some ch =>
    simp only [Store.renameChangelist, hfind] at h
    by_cases hdup : (s.changelists.any
        (fun c => c.name == nn && !(c.id == cid))) = true
    · rw [if_pos hdup] at h
      simp at h
    · rw [if_neg hdup] at h
      injection h with h
      rw [← h]
      apply map_updateFirst
      intro a
      rfl

theorem flags_moveFile (s : Store) (fid tid : String) (ar : Except Unit Unit) :
    ((s.moveFileToChangelist fid tid ar).1.changelists).map (fun c => c.isDefault)
      = s.changelists.map (fun c => c.isDefault) := by
  cases hr : removeFileFromChangelists fid s.changelists with
  | some r =>
    have hfl : r.2.map (fun c => c.isDefault)
        = s.changelists.map (fun c => c.isDefault) :=
      flags_of_shape (removeFileFromChangelists_shape hr)
    by_cases ht : (r.2.any (fun c => c.id == tid)) = true
    · have hres : (s.moveFileToChangelist fid tid ar).1.changelists =
          updateFirst (fun c => c.id == tid)
            (fun c => { c with
              files := c.files ++ [{ r.1 with changelistId := some tid }],
              isExpanded := true }) r.2 := by
        simp [Store.moveFileToChangelist, hr, ht]
      rw [hres, ← hfl]
      apply map_updateFirst
      intro a
      rfl
    · have hres : (s.moveFileToChangelist fid tid ar).1.changelists = r.2 := by
        simp [Store.moveFileToChangelist, hr, ht]
      rw [hres]
      exact hfl
  | none =>
    cases hu : s.unversionedFiles.find? (fun f => f.id == fid) with
    | some f0 =>
      by_cases ht : (s.changelists.any (fun c => c.id == tid)) = true
      · cases ar with
        | error e =>
          have hres : (s.moveFileToChangelist fid tid (Except.error e)).1.changelists
              = s.changelists := by
            simp [Store.moveFileToChangelist, hr, hu, ht]
          rw [hres]
        | ok v =>
          have hres : (s.moveFileToChangelist fid tid (Except.ok v)).1.changelists =
              updateFirst (fun c => c.id == tid)
                (fun c => { c with
                  files := c.files ++ [{ { f0 with status := FileStatus.added } with
                    changelistId := some tid }],
                  isExpanded := true }) s.changelists := by
            simp [Store.moveFileToChangelist, hr, hu, ht]
          rw [hres]
          apply map_updateFirst
          intro a
          rfl
      · have hres : (s.moveFileToChangelist fid tid ar).1.changelists
            = s.changelists := by
          simp [Store.moveFileToChangelist, hr, hu, ht]
        rw [hres]
    | none =>
      have hres : (s.moveFileToChangelist fid tid ar).1.changelists
          = s.changelists := by
        simp [Store.moveFileToChangelist, hr, hu]
      rw [hres]

theorem flags_moveChangelistFiles (s : Store) (src tgt : String) :
    ((s.moveChangelistFiles src tgt).1.changelists).map (fun c => c.isDefault)
      = s.changelists.map (fun c => c.isDefault) := by
  cases h1 : s.changelists.find? (fun c => c.id == src) with
  | none => simp only [Store.moveChangelistFiles, h1]
  | some sc =>
    cases h2 : s.changelists.find? (fun c => c.id == tgt) with
    | none => simp only [Store.moveChangelistFiles, h1, h2]
    | some tc =>
      simp only [Store.moveChangelistFiles, h1, h2]
      have step1 : (updateFirst (fun c => c.id == src)
          (fun c => { c with files := [] }) s.changelists).map (fun c => c.isDefault)
          = s.changelists.map (fun c => c.isDefault) := by
        apply map_updateFirst
        intro a
        rfl
      refine Eq.trans ?_ step1
      apply map_updateFirst
      intro a
      rfl

theorem flags_toggleFileSelection (s : Store) (fid : String) (sel : Option Bool) :
    ((s.toggleFileSelection fid sel).1.changelists).map (fun c => c.isDefault)
      = s.changelists.map (fun c => c.isDefault) := by
  simp only [Store.toggleFileSelection]
  by_cases h1 : (s.changelists.any (fun c => c.files.any (fun f => f.id == fid))) = true
  · rw [if_pos h1]
    apply map_updateFirst
    intro a
    rfl
  · rw [if_neg h1]
    by_cases h2 : (s.unversionedFiles.any (fun f => f.id == fid)) = true
    · rw [if_pos h2]
    · rw [if_neg h2]

theorem flags_toggleChangelistSelection (s : Store) (cid : String) (b : Bool) :
    ((s.toggleChangelistSelection cid b).1.changelists).map (fun c => c.isDefault)
      = s.changelists.map (fun c => c.isDefault) := by
  simp only [Store.toggleChangelistSelection]
  by_cases h1 : (s.changelists.any (fun c => c.id == cid)) = true
  · rw [if_pos h1]
    apply map_updateFirst
    intro a
    rfl
  · rw [if_neg h1]

theorem flags_removeCommittedFiles (s : Store) (ids : List String) :
    ((s.removeCommittedFiles ids).1.changelists).map (fun c => c.isDefault)
      = s.changelists.map (fun c => c.isDefault) := by
  rw [show (s.removeCommittedFiles ids).1.changelists
      = (removeLoop ids s.changelists []).1 from rfl, removeLoop_fst]
  apply flags_map
  intro c
  rfl

theorem flags_restoreFiles (s : Store) (snap : List (String × List FileItem)) :
    ((s.restoreFiles snap).1.changelists).map (fun c => c.isDefault)
      = s.changelists.map (fun c => c.isDefault) := by
  rw [show (s.restoreFiles snap).1.changelists
      = (snap.foldl restoreStep s).changelists from rfl,
    restoreFold_changelists, flags_restoreCls]

theorem flags_setChangelistExpanded (s : Store) (cid : String) (b : Bool) :
    ((s.setChangelistExpanded cid b).changelists).map (fun c => c.isDefault)
      = s.changelists.map (fun c => c.isDefault) := by
  apply map_updateFirst
  intro a
  rfl

/-- The default-changelist invariant holds in every reachable state. -/
theorem reachable_headIsOnlyDefault (s : Store) (h : Reachable s) :
    headIsOnlyDefault s.changelists := by
  induction h with
  | init =>
    exact ⟨sampleDefaultCL, [], rfl, rfl, by simp⟩
  | step hr hstep ih =>
    cases hstep with
    | refresh q => exact headIsOnlyDefault_of_map_eq (flags_refresh _ q) ih
    | createChangelist nid nn => exact headIsOnlyDefault_create _ nid nn ih
    | deleteChangelist cid => exact headIsOnlyDefault_delete _ cid ih
    | renameChangelist cid nn r hok =>
      exact headIsOnlyDefault_of_map_eq (flags_rename _ cid nn r hok) ih
    | moveFileToChangelist fid tid ar =>
      exact headIsOnlyDefault_of_map_eq (flags_moveFile _ fid tid ar) ih
    | moveChangelistFiles src tgt =>
      exact headIsOnlyDefault_of_map_eq (flags_moveChangelistFiles _ src tgt) ih
    | toggleFileSelection fid sel =>
      exact headIsOnlyDefault_of_map_eq (flags_toggleFileSelection _ fid sel) ih
    | toggleChangelistSelection cid b =>
      exact headIsOnlyDefault_of_map_eq (flags_toggleChangelistSelection _ cid b) ih
    | toggleUnversionedSelection b => exact ih
    | selectAllFiles =>
      refine headIsOnlyDefault_of_map_eq ?_ ih
      apply flags_map
      intro c
      rfl
    | deselectAllFiles =>
      refine headIsOnlyDefault_of_map_eq ?_ ih
      apply flags_map
      intro c
      rfl
    | collapseAll =>
      refine headIsOnlyDefault_of_map_eq ?_ ih
      apply flags_map
      intro c
      rfl
    | removeCommittedFiles ids =>
      exact headIsOnlyDefault_of_map_eq (flags_removeCommittedFiles _ ids) ih
    | restoreFiles snap =>
      exact headIsOnlyDefault_of_map_eq (flags_restoreFiles _ snap) ih
    | setUnversionedExpanded b => exact ih
    | setChangelistExpanded cid b =>
      exact headIsOnlyDefault_of_map_eq (flags_setChangelistExpanded _ cid b) ih

/-- **C7**: in every state reachable from construction by any sequence
of store operations, exactly one changelist has `isDefault = true`, and
`deleteChangelist` of the default's id never removes it — it returns
the store unchanged (firing nothing). -/
theorem reachable_unique_default (s : Store) (h : Reachable s) :
    s.changelists.countP (fun c => c.isDefault) = 1 ∧
    ∀ cid, (∃ c ∈ s.changelists, c.isDefault = true ∧ c.id = cid) →
      s.deleteChangelist cid = (s, []) := by
  obtain ⟨c, cs, hcls, hc, hcs⟩ := reachable_headIsOnlyDefault s h
  constructor
  · rw [hcls, List.countP_cons]
    have hz : cs.countP (fun c => c.isDefault) = 0 :=
      List.countP_eq_zero.mpr (fun x hx => by simp [hcs x hx])
    simp [hz, hc]
  · rintro cid ⟨cd, hcd, hcddef, hcdid⟩
    have hcdc : cd = c := by
      rw [hcls] at hcd
      rcases List.mem_cons.mp hcd with rfl | hmem
      · rfl
      · rw [hcs cd hmem] at hcddef
        cases hcddef
    have hfind : s.changelists.find? (fun x => x.id == cid) = some c := by
      rw [hcls]
      apply List.find?_cons_of_pos
      rw [← hcdid, hcdc]
      exact beq_self_eq_true c.id
    simp [Store.deleteChangelist, hfind, hc]

/-- Witness for C7 at the initial store, which is reachable by
construction. -/
theorem reachable_unique_default_witness :
    Store.init.changelists.countP (fun c => c.isDefault) = 1 ∧
    Store.init.deleteChangelist DefaultChangelistId = (Store.init, []) :=
  ⟨(reachable_unique_default Store.init Reachable.init).1,
   (reachable_unique_default Store.init Reachable.init).2 DefaultChangelistId
     (by decide)⟩

/-- **C6**: when the VCS status query throws, `refresh()` returns
normally (the model is a total function: the `try`/`catch` over the
whole body never lets the error escape) and leaves every component of
the store — all changelist file lists, the unversioned bucket, all
selection flags and all expand flags — exactly as before; only the
general change notification fires. -/
theorem refresh_query_error_leaves_state_unchanged (s : Store) (e : Unit) :
    s.refresh (Except.error e) = (s, [StoreEvent.didChange]) := rfl

end CommitManager
